import Mathlib

/-!
Verification development for the `enhanced_containers` secure-allocator core.

This file shallowly embeds the page-reference-counting "no swap" tracker
(`src/no_swap_allocator.cpp`, class `ec::details::no_swap_allocator_state`),
the `zero_on_release_allocator`, the two `no_swap_allocator` adapter variants,
and their "secure" composition, and proves properties about them.

Modelling conventions:
  - Memory addresses are `Nat` (byte addresses); the OS page size is a
    parameter `P : Nat`, positive in every theorem that uses it.
  - The `std::unordered_map<void*, std::uint32_t> _page_ref_count` member is an
    association list `List (Nat × Nat)` with unique keys; reference counts are
    `Nat` reduced modulo `2^32` exactly where the C++ `uint32_t` arithmetic
    wraps (`++it->second`, `--it->second`).
  - The OS pin/unpin primitives (`mlock`/`munlock`) are modelled by oracles
    `pinOk unpinOk : Nat → Bool` deciding, per page, whether the call
    succeeds; the set of currently OS-locked pages and the chronological list
    of issued OS calls are carried alongside the map as observable state.
  - C++ exceptions on the in-place-mutated tracker are modelled by returning
    the state at the throw point together with an `Option Err`.
-/

namespace EC

/-- `uint32_t` modulus: reference counts live in `std::uint32_t`. -/
def u32Mod : Nat := 2 ^ 32

/-- An OS memory-pinning call issued by the tracker: `pin g` models
`pin_memory(g, page_size)` (`mlock`), `unpin g` models
`unpin_memory(g, page_size)` (`munlock`), where `g` is a page base address. -/
inductive OsEvent : Type
  | pin (page : Nat)
  | unpin (page : Nat)
deriving DecidableEq, Repr

/-- Errors thrown by the tracker: `pinFailed` / `unpinFailed` model the
`std::system_error` thrown when `mlock` / `munlock` fails, and `notTracked`
models the `std::runtime_error("Releasing memory not tracked by
no_swap_allocator")`. -/
inductive Err : Type
  | pinFailed (page : Nat)
  | unpinFailed (page : Nat)
  | notTracked
deriving DecidableEq, Repr

/-- Lookup in the page→refcount association list (first match), modelling
`_page_ref_count.find(page)`. -/
def findCount (g : Nat) : List (Nat × Nat) → Option Nat
  | [] => none
  | (p, c) :: rest => if p = g then some c else findCount g rest

/-- Overwrite the value stored for key `g` (first match), modelling an
in-place write through an `unordered_map` iterator. -/
def setCount (g c : Nat) : List (Nat × Nat) → List (Nat × Nat)
  | [] => []
  | (p, c') :: rest => if p = g then (p, c) :: rest else (p, c') :: setCount g c rest

/-- Remove the entry for key `g` (first match), modelling
`_page_ref_count.erase(it)`. -/
def eraseCount (g : Nat) : List (Nat × Nat) → List (Nat × Nat)
  | [] => []
  | (p, c) :: rest => if p = g then rest else (p, c) :: eraseCount g rest

/-- Insert a page into the OS-locked page set (a successful `mlock`). -/
def insertLocked (g : Nat) (l : List Nat) : List Nat :=
  if g ∈ l then l else g :: l

/-- Remove a page from the OS-locked page set (a successful `munlock`). -/
def removeLocked (g : Nat) : List Nat → List Nat
  | [] => []
  | x :: xs => if x = g then removeLocked g xs else x :: removeLocked g xs

/-- State of `ec::details::no_swap_allocator_state`, extended with the
observable OS-side state: which pages the OS currently holds locked, and the
chronological trace of pin/unpin calls issued. -/
structure TrackerState : Type where
  pageRefCount : List (Nat × Nat)
  osLocked : List Nat
  osTrace : List OsEvent
deriving DecidableEq, Repr

/-- The tracker state at construction: empty map, nothing locked. -/
def emptyState : TrackerState := ⟨[], [], []⟩

/-- Is page `g` present in the tracker's map? -/
def tracked (g : Nat) (s : TrackerState) : Bool :=
  (findCount g s.pageRefCount).isSome

/-- Number of occurrences of an OS event in a trace. -/
def countEvent (e : OsEvent) : List OsEvent → Nat
  | [] => 0
  | x :: xs => (if x = e then 1 else 0) + countEvent e xs

/-- Number of OS pin calls issued so far for page `g`. -/
def pinCount (g : Nat) (s : TrackerState) : Nat :=
  countEvent (OsEvent.pin g) s.osTrace

/-- Number of OS unpin calls issued so far for page `g`. -/
def unpinCount (g : Nat) (s : TrackerState) : Nat :=
  countEvent (OsEvent.unpin g) s.osTrace

/-- Well-formedness: the association list has pairwise distinct keys, as an
`unordered_map` does. -/
def wf (s : TrackerState) : Prop :=
  (s.pageRefCount.map Prod.fst).Nodup

/-- `no_swap_allocator_state::to_page`: align `ptr` down to its page base.

The C++ implementation calls `std::align(_page_size, 1, ptr2, 2*_page_size)`
(which rounds the pointer UP to the next multiple of `_page_size`; the fake
buffer size `2*_page_size` always suffices for an adjustment `< _page_size`,
so `std::align` never returns null) and then steps back one page when the
rounded-up address exceeds `ptr`. -/
def to_page (P ptr : Nat) : Nat :=
  let page := (ptr + P - 1) / P * P
  if page > ptr then page - P else page

/-- Number of iterations of the page walk `while (page < bptr + len)`
starting at `to_page P ptr` and stepping by `P`. -/
def pageCount (P ptr len : Nat) : Nat :=
  (ptr + len - to_page P ptr + (P - 1)) / P

/-- The sequence of page base addresses visited, in order, by the loop
`page = to_page(bptr); while (page < bptr + len) { ...; page += _page_size; }`
shared by `add_allocation` and `remove_allocation`. -/
def pageList (P ptr len : Nat) : List Nat :=
  (List.range (pageCount P ptr len)).map fun k => to_page P ptr + k * P

/-- One iteration of the `add_allocation` loop body on page `g`:
if the page has no entry, `emplace(page, 1)` and then `pin_memory(page)`
(which may throw, leaving the fresh entry behind); otherwise `++it->second`
(with `uint32_t` wraparound). -/
def addPage (pinOk : Nat → Bool) (s : TrackerState) (g : Nat) :
    TrackerState × Option Err :=
  match findCount g s.pageRefCount with
  | none =>
      let s1 : TrackerState :=
        { s with pageRefCount := (g, 1) :: s.pageRefCount,
                 osTrace := s.osTrace ++ [OsEvent.pin g] }
      if pinOk g then
        ({ s1 with osLocked := insertLocked g s1.osLocked }, none)
      else
        (s1, some (Err.pinFailed g))
  | some c =>
      ({ s with pageRefCount := setCount g ((c + 1) % u32Mod) s.pageRefCount }, none)

/-- One iteration of the `remove_allocation` loop body on page `g`:
missing entry throws the "releasing memory not tracked" error; otherwise
`--it->second` (with `uint32_t` wraparound), and on reaching 0 the page is
unpinned (`munlock` may throw, leaving the zero-count entry behind) and the
entry erased. -/
def removePage (unpinOk : Nat → Bool) (s : TrackerState) (g : Nat) :
    TrackerState × Option Err :=
  match findCount g s.pageRefCount with
  | none => (s, some Err.notTracked)
  | some c =>
      let c' := (c + (u32Mod - 1)) % u32Mod
      if c' = 0 then
        let s1 : TrackerState :=
          { s with pageRefCount := setCount g c' s.pageRefCount,
                   osTrace := s.osTrace ++ [OsEvent.unpin g] }
        if unpinOk g then
          ({ s1 with pageRefCount := eraseCount g s1.pageRefCount,
                     osLocked := removeLocked g s1.osLocked }, none)
        else
          (s1, some (Err.unpinFailed g))
      else
        ({ s with pageRefCount := setCount g c' s.pageRefCount }, none)

/-- Run the `add_allocation` loop over a page sequence, aborting (with the
state at the throw point) on the first failure. -/
def walkAdd (pinOk : Nat → Bool) : List Nat → TrackerState → TrackerState × Option Err
  | [], s => (s, none)
  | g :: gs, s =>
      match addPage pinOk s g with
      | (s', none) => walkAdd pinOk gs s'
      | (s', some e) => (s', some e)

/-- Run the `remove_allocation` loop over a page sequence, aborting (with the
state at the throw point) on the first failure. -/
def walkRemove (unpinOk : Nat → Bool) : List Nat → TrackerState → TrackerState × Option Err
  | [], s => (s, none)
  | g :: gs, s =>
      match removePage unpinOk s g with
      | (s', none) => walkRemove unpinOk gs s'
      | (s', some e) => (s', some e)

/-- `no_swap_allocator_state::add_allocation(ptr, len)`. -/
def add_allocation (pinOk : Nat → Bool) (P : Nat) (s : TrackerState)
    (ptr len : Nat) : TrackerState × Option Err :=
  walkAdd pinOk (pageList P ptr len) s

/-- `no_swap_allocator_state::remove_allocation(ptr, len)`. -/
def remove_allocation (unpinOk : Nat → Bool) (P : Nat) (s : TrackerState)
    (ptr len : Nat) : TrackerState × Option Err :=
  walkRemove unpinOk (pageList P ptr len) s

/-- A tracker operation: one `add_allocation` or `remove_allocation` call. -/
inductive Op : Type
  | add (ptr len : Nat)
  | remove (ptr len : Nat)
deriving DecidableEq, Repr

/-- Apply one tracker operation. -/
def applyOp (pinOk unpinOk : Nat → Bool) (P : Nat) (s : TrackerState) :
    Op → TrackerState × Option Err
  | .add ptr len => add_allocation pinOk P s ptr len
  | .remove ptr len => remove_allocation unpinOk P s ptr len

/-- Run a sequence of tracker operations, stopping at the first failure and
returning the state at that point. -/
def runOps (pinOk unpinOk : Nat → Bool) (P : Nat) :
    List Op → TrackerState → TrackerState × Option Err
  | [], s => (s, none)
  | op :: ops, s =>
      match applyOp pinOk unpinOk P s op with
      | (s', none) => runOps pinOk unpinOk P ops s'
      | (s', some e) => (s', some e)

/-- The trajectory of tracker states visited by a run (initial state first;
`n` operations yield `n + 1` states). -/
def runStates (pinOk unpinOk : Nat → Bool) (P : Nat) :
    List Op → TrackerState → List TrackerState
  | [], s => [s]
  | op :: ops, s => s :: runStates pinOk unpinOk P ops (applyOp pinOk unpinOk P s op).1

/-! ### Association-list and event-trace lemmas -/

theorem findCount_eq_none_iff (g : Nat) (l : List (Nat × Nat)) :
    findCount g l = none ↔ g ∉ l.map Prod.fst := by
  induction l with
  | nil => simp [findCount]
  | cons p rest ih =>
      obtain ⟨a, c⟩ := p
      by_cases h : a = g
      · subst h
        simp [findCount]
      · simp only [findCount, if_neg h, List.map_cons, List.mem_cons, ih]
        constructor
        · intro hg hc
          rcases hc with hc | hc
          · exact h hc.symm
          · exact hg hc
        · intro hg
          exact fun hc => hg (Or.inr hc)

theorem findCount_setCount_ne {g' g : Nat} (c : Nat) (l : List (Nat × Nat))
    (h : g' ≠ g) : findCount g' (setCount g c l) = findCount g' l := by
  induction l with
  | nil => simp [setCount]
  | cons p rest ih =>
      obtain ⟨a, c'⟩ := p
      by_cases ha : a = g
      · subst ha
        have hag : ¬ (a = g') := fun hh => h hh.symm
        simp [setCount, findCount, hag]
      · simp [setCount, findCount, ha, ih]

theorem findCount_setCount_self {g : Nat} (c : Nat) {l : List (Nat × Nat)}
    (h : (findCount g l).isSome) : findCount g (setCount g c l) = some c := by
  induction l with
  | nil => simp [findCount] at h
  | cons p rest ih =>
      obtain ⟨a, c'⟩ := p
      by_cases ha : a = g
      · simp [setCount, findCount, ha]
      · simp only [findCount, if_neg ha] at h
        simp [setCount, findCount, ha, ih h]

theorem findCount_eraseCount_ne {g' g : Nat} (l : List (Nat × Nat))
    (h : g' ≠ g) : findCount g' (eraseCount g l) = findCount g' l := by
  induction l with
  | nil => simp [eraseCount]
  | cons p rest ih =>
      obtain ⟨a, c'⟩ := p
      by_cases ha : a = g
      · subst ha
        have hag : ¬ (a = g') := fun hh => h hh.symm
        simp [eraseCount, findCount, hag]
      · simp [eraseCount, findCount, ha, ih]

theorem eraseCount_sublist (g : Nat) (l : List (Nat × Nat)) :
    (eraseCount g l).Sublist l := by
  induction l with
  | nil => simp [eraseCount]
  | cons p rest ih =>
      obtain ⟨a, c⟩ := p
      by_cases ha : a = g
      · simp only [eraseCount, if_pos ha]
        exact List.sublist_cons_of_sublist _ (List.Sublist.refl rest)
      · simp only [eraseCount, if_neg ha]
        exact List.Sublist.cons₂ _ ih

theorem keys_setCount (g c : Nat) (l : List (Nat × Nat)) :
    (setCount g c l).map Prod.fst = l.map Prod.fst := by
  induction l with
  | nil => simp [setCount]
  | cons p rest ih =>
      obtain ⟨a, c'⟩ := p
      by_cases ha : a = g <;> simp [setCount, ha, ih]

theorem findCount_eraseCount_self {g : Nat} {l : List (Nat × Nat)}
    (hnd : (l.map Prod.fst).Nodup) : findCount g (eraseCount g l) = none := by
  induction l with
  | nil => simp [eraseCount, findCount]
  | cons p rest ih =>
      obtain ⟨a, c⟩ := p
      simp only [List.map_cons, List.nodup_cons] at hnd
      by_cases ha : a = g
      · subst ha
        rw [findCount_eq_none_iff]
        simpa [eraseCount] using hnd.1
      · simp [eraseCount, findCount, ha, ih hnd.2]

theorem nodup_keys_eraseCount {g : Nat} {l : List (Nat × Nat)}
    (hnd : (l.map Prod.fst).Nodup) : ((eraseCount g l).map Prod.fst).Nodup :=
  ((eraseCount_sublist g l).map Prod.fst).nodup hnd

theorem eq_nil_of_findCount_none {l : List (Nat × Nat)}
    (h : ∀ g, findCount g l = none) : l = [] := by
  cases l with
  | nil => rfl
  | cons p rest =>
      obtain ⟨a, c⟩ := p
      have := h a
      simp [findCount] at this

theorem mem_insertLocked {x g : Nat} {l : List Nat} :
    x ∈ insertLocked g l ↔ x = g ∨ x ∈ l := by
  unfold insertLocked
  by_cases h : g ∈ l
  · simp only [if_pos h]
    constructor
    · exact Or.inr
    · rintro (rfl | hx)
      · exact h
      · exact hx
  · simp [if_neg h]

theorem mem_removeLocked {x g : Nat} {l : List Nat} :
    x ∈ removeLocked g l ↔ x ∈ l ∧ x ≠ g := by
  induction l with
  | nil => simp [removeLocked]
  | cons y ys ih =>
      by_cases hy : y = g
      · subst hy
        have heq : removeLocked y (y :: ys) = removeLocked y ys := by
          simp [removeLocked]
        rw [heq, ih, List.mem_cons]
        constructor
        · rintro ⟨hx, hne⟩
          exact ⟨Or.inr hx, hne⟩
        · rintro ⟨hx | hx, hne⟩
          · exact absurd hx hne
          · exact ⟨hx, hne⟩
      · have heq : removeLocked g (y :: ys) = y :: removeLocked g ys := by
          simp [removeLocked, hy]
        rw [heq, List.mem_cons, List.mem_cons, ih]
        constructor
        · rintro (rfl | ⟨hx, hne⟩)
          · exact ⟨Or.inl rfl, hy⟩
          · exact ⟨Or.inr hx, hne⟩
        · rintro ⟨hx | hx, hne⟩
          · exact Or.inl hx
          · exact Or.inr ⟨hx, hne⟩

theorem countEvent_append (e : OsEvent) (l1 l2 : List OsEvent) :
    countEvent e (l1 ++ l2) = countEvent e l1 + countEvent e l2 := by
  induction l1 with
  | nil => simp [countEvent]
  | cons x xs ih => simp [countEvent, ih]; omega

/-! ### Page-address arithmetic -/

theorem to_page_eq {P : Nat} (hP : 0 < P) (ptr : Nat) :
    to_page P ptr = ptr / P * P := by
  have hdm : P * (ptr / P) + ptr % P = ptr := Nat.div_add_mod ptr P
  have hr : ptr % P < P := Nat.mod_lt _ hP
  unfold to_page
  rcases Nat.eq_zero_or_pos (ptr % P) with h0 | hpos
  · have h1 : ptr + P - 1 = (P - 1) + P * (ptr / P) := by omega
    have h2 : (ptr + P - 1) / P = ptr / P := by
      rw [h1, Nat.add_mul_div_left _ _ hP,
          Nat.div_eq_of_lt (show P - 1 < P by omega)]
      omega
    have hle : ptr / P * P ≤ ptr := by
      have hcm := Nat.mul_comm (ptr / P) P
      omega
    simp only [h2, gt_iff_lt]
    rw [if_neg (by omega)]
  · have h1 : ptr + P - 1 = (ptr % P - 1) + P * (ptr / P + 1) := by
      have hexp : P * (ptr / P + 1) = P * (ptr / P) + P := by ring
      omega
    have h2 : (ptr + P - 1) / P = ptr / P + 1 := by
      rw [h1, Nat.add_mul_div_left _ _ hP,
          Nat.div_eq_of_lt (show ptr % P - 1 < P by omega)]
      omega
    have hexp2 : (ptr / P + 1) * P = P * (ptr / P) + P := by ring
    have hcm : ptr / P * P = P * (ptr / P) := Nat.mul_comm _ _
    simp only [h2, gt_iff_lt]
    rw [if_pos (by omega)]
    omega

theorem to_page_le {P : Nat} (hP : 0 < P) (ptr : Nat) : to_page P ptr ≤ ptr := by
  rw [to_page_eq hP]
  exact Nat.div_mul_le_self _ _

theorem to_page_mod {P : Nat} (hP : 0 < P) (ptr : Nat) : to_page P ptr % P = 0 := by
  rw [to_page_eq hP]
  exact Nat.mul_mod_left _ _

theorem sub_to_page_lt {P : Nat} (hP : 0 < P) (ptr : Nat) :
    ptr - to_page P ptr < P := by
  rw [to_page_eq hP]
  have hdm := Nat.div_add_mod ptr P
  have hr : ptr % P < P := Nat.mod_lt _ hP
  have hcm := Nat.mul_comm (ptr / P) P
  omega

/-! ### Page-walk characterization -/

theorem lt_pageCount_iff {P : Nat} (hP : 0 < P) (ptr len k : Nat) :
    k < pageCount P ptr len ↔ to_page P ptr + k * P < ptr + len := by
  have hfirst : to_page P ptr ≤ ptr := to_page_le hP ptr
  unfold pageCount
  have h1 : k < (ptr + len - to_page P ptr + (P - 1)) / P ↔
      (k + 1) * P ≤ ptr + len - to_page P ptr + (P - 1) := by
    rw [Nat.lt_iff_add_one_le, Nat.le_div_iff_mul_le hP]
  rw [h1]
  have h2 : (k + 1) * P = k * P + P := by ring
  rw [h2]
  omega

theorem mem_pageList_iff {P : Nat} (hP : 0 < P) {ptr len g : Nat} :
    g ∈ pageList P ptr len ↔
      ∃ k, g = to_page P ptr + k * P ∧ g < ptr + len := by
  unfold pageList
  simp only [List.mem_map, List.mem_range]
  constructor
  · rintro ⟨k, hk, rfl⟩
    exact ⟨k, rfl, (lt_pageCount_iff hP ptr len k).mp hk⟩
  · rintro ⟨k, rfl, hlt⟩
    exact ⟨k, (lt_pageCount_iff hP ptr len k).mpr hlt, rfl⟩

theorem pageList_nodup (P ptr len : Nat) : (pageList P ptr len).Nodup := by
  rcases Nat.eq_zero_or_pos P with h0 | hP
  · subst h0
    simp [pageList, pageCount]
  · unfold pageList
    refine List.Nodup.map ?_ (List.nodup_range _)
    intro a b hab
    have hab' : to_page P ptr + a * P = to_page P ptr + b * P := hab
    have : a * P = b * P := by omega
    exact Nat.eq_of_mul_eq_mul_right hP this

/-- A page (the aligned `P`-byte block starting at `g`) intersects the byte
range `[ptr, ptr + len)`: some byte address lies in both. -/
def pageIntersects (P g ptr len : Nat) : Prop :=
  ∃ b, g ≤ b ∧ b < g + P ∧ ptr ≤ b ∧ b < ptr + len

theorem mem_pageList_iff_intersects {P ptr len g : Nat} (hP : 0 < P)
    (hlen : 0 < len) :
    g ∈ pageList P ptr len ↔ g % P = 0 ∧ pageIntersects P g ptr len := by
  rw [mem_pageList_iff hP]
  constructor
  · rintro ⟨k, rfl, hlt⟩
    have h1 := to_page_mod hP ptr
    refine ⟨by rw [Nat.add_mul_mod_self_right, h1], ?_⟩
    by_cases hc : ptr ≤ to_page P ptr + k * P
    · exact ⟨to_page P ptr + k * P, le_refl _, by omega, hc, hlt⟩
    · have hsub := sub_to_page_lt hP ptr
      have hle : to_page P ptr ≤ to_page P ptr + k * P := Nat.le_add_right _ _
      exact ⟨ptr, by omega, by omega, le_refl _, by omega⟩
  · rintro ⟨hmod, b, hgb, hbg, hpb, hblt⟩
    have hglt : g < ptr + len := lt_of_le_of_lt hgb hblt
    have hptr_lt : ptr < g + P := lt_of_le_of_lt hpb hbg
    have hfe := to_page_eq hP ptr
    have hg_dm := Nat.div_add_mod g P
    have hg_cm := Nat.mul_comm (g / P) P
    have hg_eq : g / P * P = g := by omega
    have hdiv_le : ptr / P ≤ g / P := by
      have h1 : ptr < (g / P + 1) * P := by
        have hx : (g / P + 1) * P = g / P * P + P := by ring
        omega
      by_cases h : ptr / P ≤ g / P
      · exact h
      · exfalso
        have h2 : g / P + 1 ≤ ptr / P := by omega
        have h3 : (g / P + 1) * P ≤ ptr / P * P := Nat.mul_le_mul_right _ h2
        have h4 : ptr / P * P ≤ ptr := Nat.div_mul_le_self _ _
        omega
    have hfle : to_page P ptr ≤ g := by
      rw [hfe]
      calc ptr / P * P ≤ g / P * P := Nat.mul_le_mul_right _ hdiv_le
      _ = g := hg_eq
    have hdvd : P ∣ (g - to_page P ptr) := by
      have h1 : P ∣ g := Nat.dvd_of_mod_eq_zero hmod
      have h2 : P ∣ to_page P ptr := by
        rw [hfe]
        exact Nat.dvd_mul_left P (ptr / P)
      exact Nat.dvd_sub' h1 h2
    obtain ⟨k, hk⟩ := hdvd
    have hcm : P * k = k * P := Nat.mul_comm _ _
    exact ⟨k, by omega, hglt⟩

theorem pageList_len_zero {P ptr : Nat} (hP : 0 < P) :
    pageList P ptr 0 = if ptr % P = 0 then [] else [to_page P ptr] := by
  have hfe := to_page_eq hP ptr
  have hdm := Nat.div_add_mod ptr P
  have hr : ptr % P < P := Nat.mod_lt _ hP
  have hcm := Nat.mul_comm (ptr / P) P
  by_cases h : ptr % P = 0
  · have hc : pageCount P ptr 0 = 0 := by
      unfold pageCount
      have h1 : ptr + 0 - to_page P ptr + (P - 1) = P - 1 := by omega
      rw [h1]
      exact Nat.div_eq_of_lt (by omega)
    simp [pageList, hc, h]
  · have hc : pageCount P ptr 0 = 1 := by
      unfold pageCount
      have h1 : ptr + 0 - to_page P ptr + (P - 1) = (ptr % P - 1) + P * 1 := by
        omega
      rw [h1, Nat.add_mul_div_left _ _ hP,
          Nat.div_eq_of_lt (show ptr % P - 1 < P by omega)]
    simp [pageList, hc, h, List.range_succ]

/-! ### Branch equations for the loop bodies -/

theorem addPage_none_pos (pinOk : Nat → Bool) (s : TrackerState) {g : Nat}
    (h : findCount g s.pageRefCount = none) (hp : pinOk g = true) :
    addPage pinOk s g =
      (⟨(g, 1) :: s.pageRefCount, insertLocked g s.osLocked,
        s.osTrace ++ [OsEvent.pin g]⟩, none) := by
  simp [addPage, h, hp]

theorem addPage_none_neg (pinOk : Nat → Bool) (s : TrackerState) {g : Nat}
    (h : findCount g s.pageRefCount = none) (hp : pinOk g = false) :
    addPage pinOk s g =
      (⟨(g, 1) :: s.pageRefCount, s.osLocked, s.osTrace ++ [OsEvent.pin g]⟩,
       some (Err.pinFailed g)) := by
  simp [addPage, h, hp]

theorem addPage_some (pinOk : Nat → Bool) (s : TrackerState) {g c : Nat}
    (h : findCount g s.pageRefCount = some c) :
    addPage pinOk s g =
      (⟨setCount g ((c + 1) % u32Mod) s.pageRefCount, s.osLocked, s.osTrace⟩,
       none) := by
  simp [addPage, h]

theorem removePage_none (unpinOk : Nat → Bool) (s : TrackerState) {g : Nat}
    (h : findCount g s.pageRefCount = none) :
    removePage unpinOk s g = (s, some Err.notTracked) := by
  simp [removePage, h]

theorem removePage_zero_ok (unpinOk : Nat → Bool) (s : TrackerState) {g c : Nat}
    (h : findCount g s.pageRefCount = some c)
    (hz : (c + (u32Mod - 1)) % u32Mod = 0) (hu : unpinOk g = true) :
    removePage unpinOk s g =
      (⟨eraseCount g (setCount g 0 s.pageRefCount), removeLocked g s.osLocked,
        s.osTrace ++ [OsEvent.unpin g]⟩, none) := by
  simp [removePage, h, hz, hu]

theorem removePage_zero_fail (unpinOk : Nat → Bool) (s : TrackerState) {g c : Nat}
    (h : findCount g s.pageRefCount = some c)
    (hz : (c + (u32Mod - 1)) % u32Mod = 0) (hu : unpinOk g = false) :
    removePage unpinOk s g =
      (⟨setCount g 0 s.pageRefCount, s.osLocked,
        s.osTrace ++ [OsEvent.unpin g]⟩, some (Err.unpinFailed g)) := by
  simp [removePage, h, hz, hu]

theorem removePage_pos (unpinOk : Nat → Bool) (s : TrackerState) {g c : Nat}
    (h : findCount g s.pageRefCount = some c)
    (hz : (c + (u32Mod - 1)) % u32Mod ≠ 0) :
    removePage unpinOk s g =
      (⟨setCount g ((c + (u32Mod - 1)) % u32Mod) s.pageRefCount, s.osLocked,
        s.osTrace⟩, none) := by
  simp [removePage, h, hz]

/-! ### Per-page observations and frame lemmas -/

/-- All observations about page `g` agree between two tracker states: its map
entry, its OS-locked status, and the pin/unpin call counts issued for it. -/
def obsEq (g : Nat) (s s' : TrackerState) : Prop :=
  findCount g s'.pageRefCount = findCount g s.pageRefCount ∧
  (g ∈ s'.osLocked ↔ g ∈ s.osLocked) ∧
  pinCount g s' = pinCount g s ∧
  unpinCount g s' = unpinCount g s

theorem obsEq_refl (g : Nat) (s : TrackerState) : obsEq g s s :=
  ⟨rfl, Iff.rfl, rfl, rfl⟩

theorem obsEq_trans {g : Nat} {s1 s2 s3 : TrackerState}
    (h12 : obsEq g s1 s2) (h23 : obsEq g s2 s3) : obsEq g s1 s3 :=
  ⟨h23.1.trans h12.1, h23.2.1.trans h12.2.1,
   h23.2.2.1.trans h12.2.2.1, h23.2.2.2.trans h12.2.2.2⟩

theorem countEvent_snoc_pin_ne {g g0 : Nat} (tr : List OsEvent) (hne : g ≠ g0) :
    countEvent (OsEvent.pin g) (tr ++ [OsEvent.pin g0]) =
      countEvent (OsEvent.pin g) tr := by
  have hne' : ¬ (g0 = g) := fun h => hne h.symm
  rw [countEvent_append]
  simp [countEvent, hne']

theorem countEvent_snoc_pin_self (g : Nat) (tr : List OsEvent) :
    countEvent (OsEvent.pin g) (tr ++ [OsEvent.pin g]) =
      countEvent (OsEvent.pin g) tr + 1 := by
  rw [countEvent_append]
  simp [countEvent]

theorem countEvent_unpin_snoc_pin (g g0 : Nat) (tr : List OsEvent) :
    countEvent (OsEvent.unpin g) (tr ++ [OsEvent.pin g0]) =
      countEvent (OsEvent.unpin g) tr := by
  rw [countEvent_append]
  simp [countEvent]

theorem countEvent_pin_snoc_unpin (g g0 : Nat) (tr : List OsEvent) :
    countEvent (OsEvent.pin g) (tr ++ [OsEvent.unpin g0]) =
      countEvent (OsEvent.pin g) tr := by
  rw [countEvent_append]
  simp [countEvent]

theorem countEvent_snoc_unpin_ne {g g0 : Nat} (tr : List OsEvent) (hne : g ≠ g0) :
    countEvent (OsEvent.unpin g) (tr ++ [OsEvent.unpin g0]) =
      countEvent (OsEvent.unpin g) tr := by
  have hne' : ¬ (g0 = g) := fun h => hne h.symm
  rw [countEvent_append]
  simp [countEvent, hne']

theorem countEvent_snoc_unpin_self (g : Nat) (tr : List OsEvent) :
    countEvent (OsEvent.unpin g) (tr ++ [OsEvent.unpin g]) =
      countEvent (OsEvent.unpin g) tr + 1 := by
  rw [countEvent_append]
  simp [countEvent]

theorem findCount_cons_ne {g g0 c : Nat} (l : List (Nat × Nat)) (hne : g ≠ g0) :
    findCount g ((g0, c) :: l) = findCount g l := by
  have hne' : ¬ (g0 = g) := fun h => hne h.symm
  simp [findCount, hne']

theorem findCount_cons_self (g c : Nat) (l : List (Nat × Nat)) :
    findCount g ((g, c) :: l) = some c := by
  simp [findCount]

theorem addPage_obs_ne (pinOk : Nat → Bool) (s : TrackerState) {g g0 : Nat}
    (hne : g ≠ g0) : obsEq g s (addPage pinOk s g0).1 := by
  cases h : findCount g0 s.pageRefCount with
  | none =>
      cases hp : pinOk g0 with
      | true =>
          rw [addPage_none_pos pinOk s h hp]
          refine ⟨findCount_cons_ne _ hne, ?_, ?_, ?_⟩
          · simp only [mem_insertLocked]
            constructor
            · rintro (h' | h')
              · exact absurd h' hne
              · exact h'
            · exact Or.inr
          · exact countEvent_snoc_pin_ne _ hne
          · exact countEvent_unpin_snoc_pin _ _ _
      | false =>
          rw [addPage_none_neg pinOk s h hp]
          exact ⟨findCount_cons_ne _ hne, Iff.rfl,
                 countEvent_snoc_pin_ne _ hne, countEvent_unpin_snoc_pin _ _ _⟩
  | some c =>
      rw [addPage_some pinOk s h]
      exact ⟨findCount_setCount_ne _ _ hne, Iff.rfl, rfl, rfl⟩

theorem removePage_obs_ne (unpinOk : Nat → Bool) (s : TrackerState) {g g0 : Nat}
    (hne : g ≠ g0) : obsEq g s (removePage unpinOk s g0).1 := by
  cases h : findCount g0 s.pageRefCount with
  | none =>
      rw [removePage_none unpinOk s h]
      exact obsEq_refl g s
  | some c =>
      by_cases hz : (c + (u32Mod - 1)) % u32Mod = 0
      · cases hu : unpinOk g0 with
        | true =>
            rw [removePage_zero_ok unpinOk s h hz hu]
            refine ⟨?_, ?_, ?_, ?_⟩
            · rw [findCount_eraseCount_ne _ hne, findCount_setCount_ne _ _ hne]
            · simp only [mem_removeLocked]
              constructor
              · exact fun h' => h'.1
              · exact fun h' => ⟨h', hne⟩
            · exact countEvent_pin_snoc_unpin _ _ _
            · exact countEvent_snoc_unpin_ne _ hne
        | false =>
            rw [removePage_zero_fail unpinOk s h hz hu]
            exact ⟨findCount_setCount_ne _ _ hne, Iff.rfl,
                   countEvent_pin_snoc_unpin _ _ _, countEvent_snoc_unpin_ne _ hne⟩
      · rw [removePage_pos unpinOk s h hz]
        exact ⟨findCount_setCount_ne _ _ hne, Iff.rfl, rfl, rfl⟩

/-! ### Well-formedness preservation -/

theorem wf_addPage (pinOk : Nat → Bool) (s : TrackerState) (g : Nat)
    (hwf : wf s) : wf (addPage pinOk s g).1 := by
  cases h : findCount g s.pageRefCount with
  | none =>
      have hnotin : g ∉ s.pageRefCount.map Prod.fst :=
        (findCount_eq_none_iff g _).mp h
      cases hp : pinOk g with
      | true =>
          rw [addPage_none_pos pinOk s h hp]
          exact List.Nodup.cons hnotin hwf
      | false =>
          rw [addPage_none_neg pinOk s h hp]
          exact List.Nodup.cons hnotin hwf
  | some c =>
      rw [addPage_some pinOk s h]
      unfold wf
      rw [keys_setCount]
      exact hwf

theorem wf_removePage (unpinOk : Nat → Bool) (s : TrackerState) (g : Nat)
    (hwf : wf s) : wf (removePage unpinOk s g).1 := by
  cases h : findCount g s.pageRefCount with
  | none =>
      rw [removePage_none unpinOk s h]
      exact hwf
  | some c =>
      by_cases hz : (c + (u32Mod - 1)) % u32Mod = 0
      · cases hu : unpinOk g with
        | true =>
            rw [removePage_zero_ok unpinOk s h hz hu]
            refine nodup_keys_eraseCount ?_
            rw [keys_setCount]
            exact hwf
        | false =>
            rw [removePage_zero_fail unpinOk s h hz hu]
            unfold wf
            rw [keys_setCount]
            exact hwf
      · rw [removePage_pos unpinOk s h hz]
        unfold wf
        rw [keys_setCount]
        exact hwf

theorem wf_walkAdd (pinOk : Nat → Bool) :
    ∀ (gs : List Nat) (s : TrackerState), wf s → wf (walkAdd pinOk gs s).1 := by
  intro gs
  induction gs with
  | nil => intro s hwf; exact hwf
  | cons g0 rest ih =>
      intro s hwf
      rcases hap : addPage pinOk s g0 with ⟨s1, e⟩
      have hwf1 : wf s1 := by
        have := wf_addPage pinOk s g0 hwf
        rw [hap] at this
        exact this
      cases e with
      | none => simpa [walkAdd, hap] using ih s1 hwf1
      | some e => simpa [walkAdd, hap] using hwf1

theorem wf_walkRemove (unpinOk : Nat → Bool) :
    ∀ (gs : List Nat) (s : TrackerState), wf s → wf (walkRemove unpinOk gs s).1 := by
  intro gs
  induction gs with
  | nil => intro s hwf; exact hwf
  | cons g0 rest ih =>
      intro s hwf
      rcases hrp : removePage unpinOk s g0 with ⟨s1, e⟩
      have hwf1 : wf s1 := by
        have := wf_removePage unpinOk s g0 hwf
        rw [hrp] at this
        exact this
      cases e with
      | none => simpa [walkRemove, hrp] using ih s1 hwf1
      | some e => simpa [walkRemove, hrp] using hwf1

theorem wf_emptyState : wf emptyState := by
  simp [wf, emptyState]

theorem wf_applyOp (pinOk unpinOk : Nat → Bool) (P : Nat) (s : TrackerState)
    (op : Op) (hwf : wf s) : wf (applyOp pinOk unpinOk P s op).1 := by
  cases op with
  | add ptr len => exact wf_walkAdd _ _ _ hwf
  | remove ptr len => exact wf_walkRemove _ _ _ hwf

theorem wf_runOps (pinOk unpinOk : Nat → Bool) (P : Nat) :
    ∀ (ops : List Op) (s : TrackerState), wf s →
      wf (runOps pinOk unpinOk P ops s).1 := by
  intro ops
  induction ops with
  | nil => intro s hwf; exact hwf
  | cons op rest ih =>
      intro s hwf
      rcases hop : applyOp pinOk unpinOk P s op with ⟨s1, e⟩
      have hwf1 : wf s1 := by
        have := wf_applyOp pinOk unpinOk P s op hwf
        rw [hop] at this
        exact this
      cases e with
      | none => simpa [runOps, hop] using ih s1 hwf1
      | some e => simpa [runOps, hop] using hwf1

/-! ### Walk-level lemmas -/

theorem walkAdd_succ_cons {pinOk : Nat → Bool} {s s1 : TrackerState}
    {g0 : Nat} (gs : List Nat) (hap : addPage pinOk s g0 = (s1, none)) :
    walkAdd pinOk (g0 :: gs) s = walkAdd pinOk gs s1 := by
  simp [walkAdd, hap]

theorem walkAdd_fail_cons {pinOk : Nat → Bool} {s s1 : TrackerState}
    {g0 : Nat} {e : Err} (gs : List Nat)
    (hap : addPage pinOk s g0 = (s1, some e)) :
    walkAdd pinOk (g0 :: gs) s = (s1, some e) := by
  simp [walkAdd, hap]

theorem walkRemove_succ_cons {unpinOk : Nat → Bool} {s s1 : TrackerState}
    {g0 : Nat} (gs : List Nat) (hrp : removePage unpinOk s g0 = (s1, none)) :
    walkRemove unpinOk (g0 :: gs) s = walkRemove unpinOk gs s1 := by
  simp [walkRemove, hrp]

theorem walkRemove_fail_cons {unpinOk : Nat → Bool} {s s1 : TrackerState}
    {g0 : Nat} {e : Err} (gs : List Nat)
    (hrp : removePage unpinOk s g0 = (s1, some e)) :
    walkRemove unpinOk (g0 :: gs) s = (s1, some e) := by
  simp [walkRemove, hrp]

theorem walkAdd_obs_not_mem (pinOk : Nat → Bool) {g : Nat} :
    ∀ (gs : List Nat) (s : TrackerState), g ∉ gs →
      obsEq g s (walkAdd pinOk gs s).1 := by
  intro gs
  induction gs with
  | nil => intro s _; exact obsEq_refl g s
  | cons g0 rest ih =>
      intro s hg
      have hne : g ≠ g0 := fun h => hg (h ▸ List.mem_cons_self _ _)
      have hgr : g ∉ rest := fun h => hg (List.mem_cons_of_mem _ h)
      rcases hap : addPage pinOk s g0 with ⟨s1, e⟩
      have hobs : obsEq g s s1 := by
        have := addPage_obs_ne pinOk s hne
        rw [hap] at this
        exact this
      cases e with
      | none =>
          rw [walkAdd_succ_cons rest hap]
          exact obsEq_trans hobs (ih s1 hgr)
      | some e =>
          rw [walkAdd_fail_cons rest hap]
          exact hobs

theorem walkRemove_obs_not_mem (unpinOk : Nat → Bool) {g : Nat} :
    ∀ (gs : List Nat) (s : TrackerState), g ∉ gs →
      obsEq g s (walkRemove unpinOk gs s).1 := by
  intro gs
  induction gs with
  | nil => intro s _; exact obsEq_refl g s
  | cons g0 rest ih =>
      intro s hg
      have hne : g ≠ g0 := fun h => hg (h ▸ List.mem_cons_self _ _)
      have hgr : g ∉ rest := fun h => hg (List.mem_cons_of_mem _ h)
      rcases hrp : removePage unpinOk s g0 with ⟨s1, e⟩
      have hobs : obsEq g s s1 := by
        have := removePage_obs_ne unpinOk s hne
        rw [hrp] at this
        exact this
      cases e with
      | none =>
          rw [walkRemove_succ_cons rest hrp]
          exact obsEq_trans hobs (ih s1 hgr)
      | some e =>
          rw [walkRemove_fail_cons rest hrp]
          exact hobs

theorem walkAdd_mem_new (pinOk : Nat → Bool) {g : Nat} :
    ∀ (gs : List Nat) (s : TrackerState), gs.Nodup → g ∈ gs →
      findCount g s.pageRefCount = none →
      (walkAdd pinOk gs s).2 = none →
      findCount g (walkAdd pinOk gs s).1.pageRefCount = some 1 ∧
      g ∈ (walkAdd pinOk gs s).1.osLocked ∧
      pinCount g (walkAdd pinOk gs s).1 = pinCount g s + 1 ∧
      unpinCount g (walkAdd pinOk gs s).1 = unpinCount g s := by
  intro gs
  induction gs with
  | nil => intro s _ hg; exact absurd hg (List.not_mem_nil g)
  | cons g0 rest ih =>
      intro s hnd hg hnone hsucc
      by_cases hgg : g = g0
      · subst hgg
        have hgr : g ∉ rest := (List.nodup_cons.mp hnd).1
        cases hp : pinOk g with
        | true =>
            have hap := addPage_none_pos pinOk s hnone hp
            rw [walkAdd_succ_cons rest hap] at hsucc ⊢
            set s2 : TrackerState :=
              ⟨(g, 1) :: s.pageRefCount, insertLocked g s.osLocked,
               s.osTrace ++ [OsEvent.pin g]⟩ with hs2
            have hobs : obsEq g s2 (walkAdd pinOk rest s2).1 :=
              walkAdd_obs_not_mem pinOk rest s2 hgr
            refine ⟨?_, ?_, ?_, ?_⟩
            · rw [hobs.1, hs2]
              exact findCount_cons_self g 1 s.pageRefCount
            · rw [hobs.2.1]
              exact mem_insertLocked.mpr (Or.inl rfl)
            · rw [hobs.2.2.1]
              exact countEvent_snoc_pin_self g s.osTrace
            · rw [hobs.2.2.2]
              exact countEvent_unpin_snoc_pin g g s.osTrace
        | false =>
            have hap := addPage_none_neg pinOk s hnone hp
            rw [walkAdd_fail_cons rest hap] at hsucc
            simp at hsucc
      · have hne : g ≠ g0 := hgg
        have hgr : g ∈ rest := by
          rcases List.mem_cons.mp hg with h | h
          · exact absurd h hne
          · exact h
        rcases hap : addPage pinOk s g0 with ⟨s1, e⟩
        have hobs : obsEq g s s1 := by
          have := addPage_obs_ne pinOk s hne
          rw [hap] at this
          exact this
        cases e with
        | none =>
            rw [walkAdd_succ_cons rest hap] at hsucc ⊢
            have hnone1 : findCount g s1.pageRefCount = none := by
              rw [hobs.1]; exact hnone
            have hr := ih s1 (List.nodup_cons.mp hnd).2 hgr hnone1 hsucc
            refine ⟨hr.1, hr.2.1, ?_, ?_⟩
            · rw [hr.2.2.1, hobs.2.2.1]
            · rw [hr.2.2.2, hobs.2.2.2]
        | some e =>
            rw [walkAdd_fail_cons rest hap] at hsucc
            simp at hsucc

theorem walkAdd_mem_old (pinOk : Nat → Bool) {g c : Nat} :
    ∀ (gs : List Nat) (s : TrackerState), gs.Nodup → g ∈ gs →
      findCount g s.pageRefCount = some c →
      (walkAdd pinOk gs s).2 = none →
      findCount g (walkAdd pinOk gs s).1.pageRefCount =
        some ((c + 1) % u32Mod) ∧
      (g ∈ (walkAdd pinOk gs s).1.osLocked ↔ g ∈ s.osLocked) ∧
      pinCount g (walkAdd pinOk gs s).1 = pinCount g s ∧
      unpinCount g (walkAdd pinOk gs s).1 = unpinCount g s := by
  intro gs
  induction gs with
  | nil => intro s _ hg; exact absurd hg (List.not_mem_nil g)
  | cons g0 rest ih =>
      intro s hnd hg hsome hsucc
      by_cases hgg : g = g0
      · subst hgg
        have hgr : g ∉ rest := (List.nodup_cons.mp hnd).1
        have hap := addPage_some pinOk s hsome
        rw [walkAdd_succ_cons rest hap] at hsucc ⊢
        set s2 : TrackerState :=
          ⟨setCount g ((c + 1) % u32Mod) s.pageRefCount, s.osLocked,
           s.osTrace⟩ with hs2
        have hobs : obsEq g s2 (walkAdd pinOk rest s2).1 :=
          walkAdd_obs_not_mem pinOk rest s2 hgr
        refine ⟨?_, ?_, ?_, ?_⟩
        · rw [hobs.1, hs2]
          exact findCount_setCount_self _ (by rw [hsome]; rfl)
        · rw [hobs.2.1]
        · rw [hobs.2.2.1, hs2]
          rfl
        · rw [hobs.2.2.2, hs2]
          rfl
      · have hne : g ≠ g0 := hgg
        have hgr : g ∈ rest := by
          rcases List.mem_cons.mp hg with h | h
          · exact absurd h hne
          · exact h
        rcases hap : addPage pinOk s g0 with ⟨s1, e⟩
        have hobs : obsEq g s s1 := by
          have := addPage_obs_ne pinOk s hne
          rw [hap] at this
          exact this
        cases e with
        | none =>
            rw [walkAdd_succ_cons rest hap] at hsucc ⊢
            have hsome1 : findCount g s1.pageRefCount = some c := by
              rw [hobs.1]; exact hsome
            have hr := ih s1 (List.nodup_cons.mp hnd).2 hgr hsome1 hsucc
            refine ⟨hr.1, hr.2.1.trans hobs.2.1, ?_, ?_⟩
            · rw [hr.2.2.1, hobs.2.2.1]
            · rw [hr.2.2.2, hobs.2.2.2]
        | some e =>
            rw [walkAdd_fail_cons rest hap] at hsucc
            simp at hsucc

theorem walkRemove_mem (unpinOk : Nat → Bool) {g : Nat} :
    ∀ (gs : List Nat) (s : TrackerState), wf s → gs.Nodup → g ∈ gs →
      (walkRemove unpinOk gs s).2 = none →
      ∃ c, findCount g s.pageRefCount = some c ∧
        ((c + (u32Mod - 1)) % u32Mod = 0 →
          findCount g (walkRemove unpinOk gs s).1.pageRefCount = none ∧
          g ∉ (walkRemove unpinOk gs s).1.osLocked ∧
          pinCount g (walkRemove unpinOk gs s).1 = pinCount g s ∧
          unpinCount g (walkRemove unpinOk gs s).1 = unpinCount g s + 1) ∧
        ((c + (u32Mod - 1)) % u32Mod ≠ 0 →
          findCount g (walkRemove unpinOk gs s).1.pageRefCount =
            some ((c + (u32Mod - 1)) % u32Mod) ∧
          (g ∈ (walkRemove unpinOk gs s).1.osLocked ↔ g ∈ s.osLocked) ∧
          pinCount g (walkRemove unpinOk gs s).1 = pinCount g s ∧
          unpinCount g (walkRemove unpinOk gs s).1 = unpinCount g s) := by
  intro gs
  induction gs with
  | nil => intro s _ _ hg; exact absurd hg (List.not_mem_nil g)
  | cons g0 rest ih =>
      intro s hwf hnd hg hsucc
      by_cases hgg : g = g0
      · subst hgg
        have hgr : g ∉ rest := (List.nodup_cons.mp hnd).1
        cases hc : findCount g s.pageRefCount with
        | none =>
            rw [walkRemove_fail_cons rest (removePage_none unpinOk s hc)] at hsucc
            simp at hsucc
        | some c =>
            refine ⟨c, rfl, ?_, ?_⟩
            · intro hz
              cases hu : unpinOk g with
              | true =>
                  have hrp := removePage_zero_ok unpinOk s hc hz hu
                  rw [walkRemove_succ_cons rest hrp] at hsucc ⊢
                  set s2 : TrackerState :=
                    ⟨eraseCount g (setCount g 0 s.pageRefCount),
                     removeLocked g s.osLocked,
                     s.osTrace ++ [OsEvent.unpin g]⟩ with hs2
                  have hobs : obsEq g s2 (walkRemove unpinOk rest s2).1 :=
                    walkRemove_obs_not_mem unpinOk rest s2 hgr
                  refine ⟨?_, ?_, ?_, ?_⟩
                  · rw [hobs.1, hs2]
                    refine findCount_eraseCount_self ?_
                    rw [keys_setCount]
                    exact hwf
                  · rw [hobs.2.1]
                    simp [mem_removeLocked]
                  · rw [hobs.2.2.1]
                    exact countEvent_pin_snoc_unpin g g s.osTrace
                  · rw [hobs.2.2.2]
                    exact countEvent_snoc_unpin_self g s.osTrace
              | false =>
                  have hrp := removePage_zero_fail unpinOk s hc hz hu
                  rw [walkRemove_fail_cons rest hrp] at hsucc
                  simp at hsucc
            · intro hz
              have hrp := removePage_pos unpinOk s hc hz
              rw [walkRemove_succ_cons rest hrp] at hsucc ⊢
              set s2 : TrackerState :=
                ⟨setCount g ((c + (u32Mod - 1)) % u32Mod) s.pageRefCount,
                 s.osLocked, s.osTrace⟩ with hs2
              have hobs : obsEq g s2 (walkRemove unpinOk rest s2).1 :=
                walkRemove_obs_not_mem unpinOk rest s2 hgr
              refine ⟨?_, ?_, ?_, ?_⟩
              · rw [hobs.1, hs2]
                exact findCount_setCount_self _ (by rw [hc]; rfl)
              · rw [hobs.2.1]
              · rw [hobs.2.2.1, hs2]
                rfl
              · rw [hobs.2.2.2, hs2]
                rfl
      · have hne : g ≠ g0 := hgg
        have hgr : g ∈ rest := by
          rcases List.mem_cons.mp hg with h | h
          · exact absurd h hne
          · exact h
        rcases hrp : removePage unpinOk s g0 with ⟨s1, e⟩
        have hobs : obsEq g s s1 := by
          have := removePage_obs_ne unpinOk s hne
          rw [hrp] at this
          exact this
        have hwf1 : wf s1 := by
          have := wf_removePage unpinOk s g0 hwf
          rw [hrp] at this
          exact this
        cases e with
        | none =>
            rw [walkRemove_succ_cons rest hrp] at hsucc ⊢
            obtain ⟨c, hc1, hz0, hzp⟩ :=
              ih s1 hwf1 (List.nodup_cons.mp hnd).2 hgr hsucc
            refine ⟨c, by rw [← hobs.1]; exact hc1, ?_, ?_⟩
            · intro hz
              obtain ⟨h1, h2, h3, h4⟩ := hz0 hz
              exact ⟨h1, h2, h3.trans hobs.2.2.1,
                     by rw [h4, hobs.2.2.2]⟩
            · intro hz
              obtain ⟨h1, h2, h3, h4⟩ := hzp hz
              exact ⟨h1, h2.trans hobs.2.1, h3.trans hobs.2.2.1,
                     h4.trans hobs.2.2.2⟩
        | some e =>
            rw [walkRemove_fail_cons rest hrp] at hsucc
            simp at hsucc

theorem addPage_succ (pinOk : Nat → Bool) (s : TrackerState) (g : Nat)
    (hp : pinOk g = true) : (addPage pinOk s g).2 = none := by
  cases h : findCount g s.pageRefCount with
  | none => rw [addPage_none_pos pinOk s h hp]
  | some c => rw [addPage_some pinOk s h]

theorem walkAdd_succ_of_pinOk (pinOk : Nat → Bool)
    (hpin : ∀ g, pinOk g = true) :
    ∀ (gs : List Nat) (s : TrackerState), (walkAdd pinOk gs s).2 = none := by
  intro gs
  induction gs with
  | nil => intro s; rfl
  | cons g0 rest ih =>
      intro s
      rcases hap : addPage pinOk s g0 with ⟨s1, e⟩
      cases e with
      | none =>
          rw [walkAdd_succ_cons rest hap]
          exact ih s1
      | some e =>
          have h := addPage_succ pinOk s g0 (hpin g0)
          rw [hap] at h
          simp at h

theorem removePage_succ_of_some (unpinOk : Nat → Bool) {s : TrackerState}
    {g c : Nat} (h : findCount g s.pageRefCount = some c)
    (hu : unpinOk g = true) : (removePage unpinOk s g).2 = none := by
  by_cases hz : (c + (u32Mod - 1)) % u32Mod = 0
  · rw [removePage_zero_ok unpinOk s h hz hu]
  · rw [removePage_pos unpinOk s h hz]

theorem walkRemove_err (unpinOk : Nat → Bool)
    (hupin : ∀ g, unpinOk g = true) :
    ∀ (gs : List Nat) (s : TrackerState), gs.Nodup →
      (((walkRemove unpinOk gs s).2 = some Err.notTracked) ↔
        ∃ g ∈ gs, findCount g s.pageRefCount = none) ∧
      (((walkRemove unpinOk gs s).2 = none) ↔
        ∀ g ∈ gs, (findCount g s.pageRefCount).isSome) := by
  intro gs
  induction gs with
  | nil =>
      intro s _
      constructor
      · simp [walkRemove]
      · simp [walkRemove]
  | cons g0 rest ih =>
      intro s hnd
      cases hc : findCount g0 s.pageRefCount with
      | none =>
          rw [walkRemove_fail_cons rest (removePage_none unpinOk s hc)]
          constructor
          · constructor
            · intro _
              exact ⟨g0, List.mem_cons_self _ _, hc⟩
            · intro _
              rfl
          · constructor
            · intro h
              simp at h
            · intro h
              have h0 := h g0 (List.mem_cons_self _ _)
              rw [hc] at h0
              simp at h0
      | some c =>
          have hsp := removePage_succ_of_some unpinOk hc (hupin g0)
          rcases hrp : removePage unpinOk s g0 with ⟨s1, e⟩
          rw [hrp] at hsp
          simp at hsp
          subst hsp
          rw [walkRemove_succ_cons rest hrp]
          have hg0nr : g0 ∉ rest := (List.nodup_cons.mp hnd).1
          have hpres : ∀ g ∈ rest,
              findCount g s1.pageRefCount = findCount g s.pageRefCount := by
            intro g hg
            have hne : g ≠ g0 := fun hh => hg0nr (hh ▸ hg)
            have hobs := removePage_obs_ne unpinOk s hne
            rw [hrp] at hobs
            exact hobs.1
          obtain ⟨ih1, ih2⟩ := ih s1 (List.nodup_cons.mp hnd).2
          constructor
          · rw [ih1]
            constructor
            · rintro ⟨g, hg, hgn⟩
              refine ⟨g, List.mem_cons_of_mem _ hg, ?_⟩
              rw [← hpres g hg]
              exact hgn
            · rintro ⟨g, hg, hgn⟩
              rcases List.mem_cons.mp hg with rfl | hg'
              · rw [hc] at hgn
                simp at hgn
              · refine ⟨g, hg', ?_⟩
                rw [hpres g hg']
                exact hgn
          · rw [ih2]
            constructor
            · intro h g hg
              rcases List.mem_cons.mp hg with rfl | hg'
              · rw [hc]
                rfl
              · rw [← hpres g hg']
                exact h g hg'
            · intro h g hg
              rw [hpres g hg]
              exact h g (List.mem_cons_of_mem _ hg)

theorem walkRemove_pre_fail (unpinOk : Nat → Bool)
    (hupin : ∀ g, unpinOk g = true) :
    ∀ (pre : List Nat) (gbad : Nat) (rest : List Nat) (s : TrackerState),
      (pre ++ gbad :: rest).Nodup →
      (∀ g ∈ pre, (findCount g s.pageRefCount).isSome) →
      findCount gbad s.pageRefCount = none →
      walkRemove unpinOk (pre ++ gbad :: rest) s =
        ((walkRemove unpinOk pre s).1, some Err.notTracked) ∧
      (walkRemove unpinOk pre s).2 = none := by
  intro pre
  induction pre with
  | nil =>
      intro gbad rest s _ _ hbad
      constructor
      · rw [List.nil_append, walkRemove_fail_cons rest (removePage_none unpinOk s hbad)]
        rfl
      · rfl
  | cons p pre' ih =>
      intro gbad rest s hnd hpre hbad
      have hps : (findCount p s.pageRefCount).isSome :=
        hpre p (List.mem_cons_self _ _)
      cases hc : findCount p s.pageRefCount with
      | none =>
          rw [hc] at hps
          simp at hps
      | some c =>
          have hsp := removePage_succ_of_some unpinOk hc (hupin p)
          rcases hrp : removePage unpinOk s p with ⟨s1, e⟩
          rw [hrp] at hsp
          simp at hsp
          subst hsp
          have hcons : ((p :: pre') ++ gbad :: rest) = p :: (pre' ++ gbad :: rest) :=
            rfl
          have hnd' : (p :: (pre' ++ gbad :: rest)).Nodup := hcons ▸ hnd
          have hnotin : p ∉ pre' ++ gbad :: rest := (List.nodup_cons.mp hnd').1
          have hpres : ∀ g, g ∈ pre' ++ gbad :: rest →
              findCount g s1.pageRefCount = findCount g s.pageRefCount := by
            intro g hg
            have hne : g ≠ p := fun hh => hnotin (hh ▸ hg)
            have hobs := removePage_obs_ne unpinOk s hne
            rw [hrp] at hobs
            exact hobs.1
          have h1 : ∀ g ∈ pre', (findCount g s1.pageRefCount).isSome := by
            intro g hg
            rw [hpres g (List.mem_append_left _ hg)]
            exact hpre g (List.mem_cons_of_mem _ hg)
          have h2 : findCount gbad s1.pageRefCount = none := by
            rw [hpres gbad (List.mem_append_right _ (List.mem_cons_self _ _))]
            exact hbad
          obtain ⟨ihA, ihB⟩ :=
            ih gbad rest s1 (List.nodup_cons.mp hnd').2 h1 h2
          constructor
          · rw [hcons, walkRemove_succ_cons _ hrp, ihA,
                walkRemove_succ_cons pre' hrp]
          · rw [walkRemove_succ_cons pre' hrp]
            exact ihB

/-! ### Run-level lemmas -/

theorem runOps_succ_cons {pinOk unpinOk : Nat → Bool} {P : Nat}
    {s s1 : TrackerState} {op : Op} (ops : List Op)
    (hop : applyOp pinOk unpinOk P s op = (s1, none)) :
    runOps pinOk unpinOk P (op :: ops) s = runOps pinOk unpinOk P ops s1 := by
  simp [runOps, hop]

theorem runOps_fail_cons {pinOk unpinOk : Nat → Bool} {P : Nat}
    {s s1 : TrackerState} {op : Op} {e : Err} (ops : List Op)
    (hop : applyOp pinOk unpinOk P s op = (s1, some e)) :
    runOps pinOk unpinOk P (op :: ops) s = (s1, some e) := by
  simp [runOps, hop]

theorem tracked_eq_false_iff {g : Nat} {s : TrackerState} :
    tracked g s = false ↔ findCount g s.pageRefCount = none := by
  cases h : findCount g s.pageRefCount <;> simp [tracked, h]

theorem tracked_eq_true_iff {g : Nat} {s : TrackerState} :
    tracked g s = true ↔ ∃ c, findCount g s.pageRefCount = some c := by
  cases h : findCount g s.pageRefCount <;> simp [tracked, h]

/-- The spec's claimed tracker invariant (bounded form): every mapped page has
a reference count between 1 and `B` and is OS-locked; unmapped pages are not
locked. -/
def invHolds (B : Nat) (s : TrackerState) : Prop :=
  wf s ∧
  (∀ g c, findCount g s.pageRefCount = some c → 1 ≤ c ∧ c ≤ B ∧ g ∈ s.osLocked) ∧
  (∀ g, findCount g s.pageRefCount = none → g ∉ s.osLocked)

theorem invHolds_empty : invHolds 0 emptyState := by
  refine ⟨wf_emptyState, ?_, ?_⟩
  · intro g c hg
    simp [emptyState, findCount] at hg
  · intro g _
    simp [emptyState]

theorem dec_mod_eq {c : Nat} (h1 : 1 ≤ c) (h2 : c < u32Mod) :
    (c + (u32Mod - 1)) % u32Mod = c - 1 := by
  have hu : 0 < u32Mod := by
    unfold u32Mod
    norm_num
  have he : c + (u32Mod - 1) = (c - 1) + u32Mod := by omega
  rw [he, Nat.add_mod_right]
  exact Nat.mod_eq_of_lt (by omega)

theorem applyOp_add_eq (pinOk unpinOk : Nat → Bool) (P : Nat)
    (s : TrackerState) (ptr len : Nat) :
    applyOp pinOk unpinOk P s (Op.add ptr len) =
      walkAdd pinOk (pageList P ptr len) s := rfl

theorem applyOp_remove_eq (pinOk unpinOk : Nat → Bool) (P : Nat)
    (s : TrackerState) (ptr len : Nat) :
    applyOp pinOk unpinOk P s (Op.remove ptr len) =
      walkRemove unpinOk (pageList P ptr len) s := rfl

theorem invHolds_applyOp (pinOk unpinOk : Nat → Bool) (P : Nat) {B : Nat}
    (s : TrackerState) (op : Op) (hB : B + 1 < u32Mod) (hinv : invHolds B s)
    (hsucc : (applyOp pinOk unpinOk P s op).2 = none) :
    invHolds (B + 1) (applyOp pinOk unpinOk P s op).1 := by
  obtain ⟨hwf, hsome, hnone⟩ := hinv
  cases op with
  | add ptr len =>
      rw [applyOp_add_eq] at hsucc ⊢
      have hnd : (pageList P ptr len).Nodup := pageList_nodup P ptr len
      refine ⟨wf_walkAdd _ _ s hwf, ?_, ?_⟩
      · intro g c hg
        by_cases hmem : g ∈ pageList P ptr len
        · cases hc : findCount g s.pageRefCount with
          | none =>
              have hr := walkAdd_mem_new _ _ s hnd hmem hc hsucc
              rw [hr.1] at hg
              have hc1 : c = 1 := (Option.some.inj hg).symm
              exact ⟨by omega, by omega, hr.2.1⟩
          | some c0 =>
              have h0 := hsome g c0 hc
              have hr := walkAdd_mem_old _ _ s hnd hmem hc hsucc
              rw [hr.1] at hg
              have hm : (c0 + 1) % u32Mod = c0 + 1 :=
                Nat.mod_eq_of_lt (by omega)
              have hc1 : c = c0 + 1 := by
                rw [hm] at hg
                exact (Option.some.inj hg).symm
              exact ⟨by omega, by omega, hr.2.1.mpr h0.2.2⟩
        · have hobs := walkAdd_obs_not_mem pinOk _ s hmem
          rw [hobs.1] at hg
          have h0 := hsome g c hg
          exact ⟨h0.1, by omega, hobs.2.1.mpr h0.2.2⟩
      · intro g hg
        by_cases hmem : g ∈ pageList P ptr len
        · cases hc : findCount g s.pageRefCount with
          | none =>
              have hr := walkAdd_mem_new _ _ s hnd hmem hc hsucc
              rw [hr.1] at hg
              simp at hg
          | some c0 =>
              have hr := walkAdd_mem_old _ _ s hnd hmem hc hsucc
              rw [hr.1] at hg
              simp at hg
        · have hobs := walkAdd_obs_not_mem pinOk _ s hmem
          rw [hobs.1] at hg
          intro hlock
          exact hnone g hg (hobs.2.1.mp hlock)
  | remove ptr len =>
      rw [applyOp_remove_eq] at hsucc ⊢
      have hnd : (pageList P ptr len).Nodup := pageList_nodup P ptr len
      refine ⟨wf_walkRemove _ _ s hwf, ?_, ?_⟩
      · intro g c hg
        by_cases hmem : g ∈ pageList P ptr len
        · obtain ⟨c0, hc0, hz0, hzp⟩ :=
            walkRemove_mem _ _ s hwf hnd hmem hsucc
          have h0 := hsome g c0 hc0
          have hdec : (c0 + (u32Mod - 1)) % u32Mod = c0 - 1 :=
            dec_mod_eq h0.1 (by omega)
          by_cases hz : c0 - 1 = 0
          · have h00 := hz0 (by rw [hdec]; exact hz)
            rw [h00.1] at hg
            simp at hg
          · have hp := hzp (by rw [hdec]; exact hz)
            rw [hp.1] at hg
            rw [hdec] at hg
            have hc1 : c = c0 - 1 := (Option.some.inj hg).symm
            exact ⟨by omega, by omega, hp.2.1.mpr h0.2.2⟩
        · have hobs := walkRemove_obs_not_mem unpinOk _ s hmem
          rw [hobs.1] at hg
          have h0 := hsome g c hg
          exact ⟨h0.1, by omega, hobs.2.1.mpr h0.2.2⟩
      · intro g hg
        by_cases hmem : g ∈ pageList P ptr len
        · obtain ⟨c0, hc0, hz0, hzp⟩ :=
            walkRemove_mem _ _ s hwf hnd hmem hsucc
          have h0 := hsome g c0 hc0
          have hdec : (c0 + (u32Mod - 1)) % u32Mod = c0 - 1 :=
            dec_mod_eq h0.1 (by omega)
          by_cases hz : c0 - 1 = 0
          · exact (hz0 (by rw [hdec]; exact hz)).2.1
          · have hp := hzp (by rw [hdec]; exact hz)
            rw [hp.1] at hg
            simp at hg
        · have hobs := walkRemove_obs_not_mem unpinOk _ s hmem
          rw [hobs.1] at hg
          intro hlock
          exact hnone g hg (hobs.2.1.mp hlock)

theorem invHolds_runOps (pinOk unpinOk : Nat → Bool) (P : Nat) :
    ∀ (ops : List Op) (B : Nat) (s : TrackerState), invHolds B s →
      B + ops.length < u32Mod →
      (runOps pinOk unpinOk P ops s).2 = none →
      invHolds (B + ops.length) (runOps pinOk unpinOk P ops s).1 := by
  intro ops
  induction ops with
  | nil =>
      intro B s hinv _ _
      simpa using hinv
  | cons op rest ih =>
      intro B s hinv hlen hsucc
      rcases hop : applyOp pinOk unpinOk P s op with ⟨s1, e⟩
      cases e with
      | none =>
          rw [runOps_succ_cons rest hop] at hsucc ⊢
          have hstep : invHolds (B + 1) s1 := by
            have h := invHolds_applyOp pinOk unpinOk P s op
              (by simp at hlen; omega) hinv (by rw [hop])
            rw [hop] at h
            exact h
          have hlen1 : (B + 1) + rest.length < u32Mod := by
            simp at hlen
            omega
          have hr := ih (B + 1) s1 hstep hlen1 hsucc
          have he : B + (op :: rest).length = (B + 1) + rest.length := by
            simp
            omega
          rw [he]
          exact hr
      | some e =>
          rw [runOps_fail_cons rest hop] at hsucc
          simp at hsucc

/-! ### Pin/unpin transition analysis for a single operation -/

theorem applyOp_transitions (pinOk unpinOk : Nat → Bool) (P : Nat)
    {g : Nat} (s : TrackerState) (op : Op) (hwf : wf s)
    (hsucc : (applyOp pinOk unpinOk P s op).2 = none) :
    (tracked g s = false → tracked g (applyOp pinOk unpinOk P s op).1 = true →
      pinCount g (applyOp pinOk unpinOk P s op).1 = pinCount g s + 1 ∧
      unpinCount g (applyOp pinOk unpinOk P s op).1 = unpinCount g s) ∧
    (tracked g s = true → tracked g (applyOp pinOk unpinOk P s op).1 = true →
      pinCount g (applyOp pinOk unpinOk P s op).1 = pinCount g s ∧
      unpinCount g (applyOp pinOk unpinOk P s op).1 = unpinCount g s) ∧
    (tracked g s = true → tracked g (applyOp pinOk unpinOk P s op).1 = false →
      pinCount g (applyOp pinOk unpinOk P s op).1 = pinCount g s ∧
      unpinCount g (applyOp pinOk unpinOk P s op).1 = unpinCount g s + 1) ∧
    (tracked g s = false → tracked g (applyOp pinOk unpinOk P s op).1 = false →
      pinCount g (applyOp pinOk unpinOk P s op).1 = pinCount g s ∧
      unpinCount g (applyOp pinOk unpinOk P s op).1 = unpinCount g s) := by
  cases op with
  | add ptr len =>
      rw [applyOp_add_eq] at hsucc ⊢
      have hnd : (pageList P ptr len).Nodup := pageList_nodup P ptr len
      by_cases hmem : g ∈ pageList P ptr len
      · cases hc : findCount g s.pageRefCount with
        | none =>
            have hr := walkAdd_mem_new _ _ s hnd hmem hc hsucc
            have htr' : tracked g (walkAdd pinOk (pageList P ptr len) s).1 = true := by
              rw [tracked, hr.1]
              rfl
            refine ⟨fun _ _ => ⟨hr.2.2.1, hr.2.2.2⟩, ?_, ?_, ?_⟩
            · intro ht _
              rw [tracked_eq_false_iff.mpr hc] at ht
              simp at ht
            · intro ht _
              rw [tracked_eq_false_iff.mpr hc] at ht
              simp at ht
            · intro _ ht'
              rw [htr'] at ht'
              simp at ht'
        | some c0 =>
            have hr := walkAdd_mem_old _ _ s hnd hmem hc hsucc
            have htr : tracked g s = true := by
              rw [tracked, hc]
              rfl
            have htr' : tracked g (walkAdd pinOk (pageList P ptr len) s).1 = true := by
              rw [tracked, hr.1]
              rfl
            refine ⟨?_, fun _ _ => ⟨hr.2.2.1, hr.2.2.2⟩, ?_, ?_⟩
            · intro ht _
              rw [htr] at ht
              simp at ht
            · intro _ ht'
              rw [htr'] at ht'
              simp at ht'
            · intro ht _
              rw [htr] at ht
              simp at ht
      · have hobs := walkAdd_obs_not_mem pinOk _ s hmem
        have heq : tracked g (walkAdd pinOk (pageList P ptr len) s).1 = tracked g s := by
          rw [tracked, tracked, hobs.1]
        refine ⟨?_, fun _ _ => ⟨hobs.2.2.1, hobs.2.2.2⟩, ?_,
                fun _ _ => ⟨hobs.2.2.1, hobs.2.2.2⟩⟩
        · intro ht ht'
          rw [heq, ht] at ht'
          simp at ht'
        · intro ht ht'
          rw [heq, ht] at ht'
          simp at ht'
  | remove ptr len =>
      rw [applyOp_remove_eq] at hsucc ⊢
      have hnd : (pageList P ptr len).Nodup := pageList_nodup P ptr len
      by_cases hmem : g ∈ pageList P ptr len
      · obtain ⟨c0, hc0, hz0, hzp⟩ := walkRemove_mem _ _ s hwf hnd hmem hsucc
        have htr : tracked g s = true := by
          rw [tracked, hc0]
          rfl
        by_cases hz : (c0 + (u32Mod - 1)) % u32Mod = 0
        · have h0 := hz0 hz
          have htr' : tracked g (walkRemove unpinOk (pageList P ptr len) s).1 = false := by
            rw [tracked, h0.1]
            rfl
          refine ⟨?_, ?_, fun _ _ => ⟨h0.2.2.1, h0.2.2.2⟩, ?_⟩
          · intro ht _
            rw [htr] at ht
            simp at ht
          · intro _ ht'
            rw [htr'] at ht'
            simp at ht'
          · intro ht _
            rw [htr] at ht
            simp at ht
        · have hp := hzp hz
          have htr' : tracked g (walkRemove unpinOk (pageList P ptr len) s).1 = true := by
            rw [tracked, hp.1]
            rfl
          refine ⟨?_, fun _ _ => ⟨hp.2.2.1, hp.2.2.2⟩, ?_, ?_⟩
          · intro ht _
            rw [htr] at ht
            simp at ht
          · intro _ ht'
            rw [htr'] at ht'
            simp at ht'
          · intro ht _
            rw [htr] at ht
            simp at ht
      · have hobs := walkRemove_obs_not_mem unpinOk _ s hmem
        have heq : tracked g (walkRemove unpinOk (pageList P ptr len) s).1 = tracked g s := by
          rw [tracked, tracked, hobs.1]
        refine ⟨?_, fun _ _ => ⟨hobs.2.2.1, hobs.2.2.2⟩, ?_,
                fun _ _ => ⟨hobs.2.2.1, hobs.2.2.2⟩⟩
        · intro ht ht'
          rw [heq, ht] at ht'
          simp at ht'
        · intro ht ht'
          rw [heq, ht] at ht'
          simp at ht'

/-! ### Trajectory lemmas -/

theorem runStates_ne_nil {pinOk unpinOk : Nat → Bool} {P : Nat}
    (ops : List Op) (s : TrackerState) :
    runStates pinOk unpinOk P ops s ≠ [] := by
  cases ops <;> simp [runStates]

theorem dropLast_cons_of_ne_nil {α : Type} {l : List α} (h : l ≠ [])
    (a : α) : (a :: l).dropLast = a :: l.dropLast := by
  cases l with
  | nil => exact absurd rfl h
  | cons b l' => rfl

theorem run_close {pinOk unpinOk : Nat → Bool} {P g : Nat} :
    ∀ (ops : List Op) (s : TrackerState), wf s →
      (runOps pinOk unpinOk P ops s).2 = none →
      tracked g s = true →
      tracked g (runOps pinOk unpinOk P ops s).1 = false →
      (∀ t ∈ (runStates pinOk unpinOk P ops s).dropLast, tracked g t = true) →
      pinCount g (runOps pinOk unpinOk P ops s).1 = pinCount g s ∧
      unpinCount g (runOps pinOk unpinOk P ops s).1 = unpinCount g s + 1 := by
  intro ops
  induction ops with
  | nil =>
      intro s _ _ htr hfin _
      rw [show (runOps pinOk unpinOk P [] s) = (s, none) from rfl] at hfin
      rw [htr] at hfin
      simp at hfin
  | cons op rest ih =>
      intro s hwf hsucc htr hfin hmid
      rcases hop : applyOp pinOk unpinOk P s op with ⟨s1, e⟩
      cases e with
      | some e =>
          rw [runOps_fail_cons rest hop] at hsucc
          simp at hsucc
      | none =>
          rw [runOps_succ_cons rest hop] at hsucc hfin ⊢
          have hopsucc : (applyOp pinOk unpinOk P s op).2 = none := by
            rw [hop]
          have htrans := applyOp_transitions pinOk unpinOk P (g := g)
            s op hwf hopsucc
          rw [hop] at htrans
          have hwf1 : wf s1 := by
            have h := wf_applyOp pinOk unpinOk P s op hwf
            rw [hop] at h
            exact h
          have hmid' : ∀ t ∈ (runStates pinOk unpinOk P rest s1).dropLast,
              tracked g t = true := by
            intro t ht
            apply hmid
            rw [show runStates pinOk unpinOk P (op :: rest) s =
                  s :: runStates pinOk unpinOk P rest (applyOp pinOk unpinOk P s op).1
                  from rfl, hop]
            rw [dropLast_cons_of_ne_nil (runStates_ne_nil rest s1) s]
            exact List.mem_cons_of_mem _ ht
          cases ht1 : tracked g s1 with
          | true =>
              have hr := ih s1 hwf1 hsucc ht1 hfin hmid'
              have hd := htrans.2.1 htr ht1
              exact ⟨hr.1.trans hd.1, by rw [hr.2, hd.2]⟩
          | false =>
              cases rest with
              | nil =>
                  have hd := htrans.2.2.1 htr ht1
                  exact hd
              | cons op' rest' =>
                  exfalso
                  have hs1mem : s1 ∈
                      (runStates pinOk unpinOk P (op' :: rest') s1).dropLast := by
                    rw [show runStates pinOk unpinOk P (op' :: rest') s1 =
                          s1 :: runStates pinOk unpinOk P rest'
                            (applyOp pinOk unpinOk P s1 op').1 from rfl]
                    rw [dropLast_cons_of_ne_nil (runStates_ne_nil rest' _) s1]
                    exact List.mem_cons_self _ _
                  have := hmid' s1 hs1mem
                  rw [ht1] at this
                  simp at this

/-! ### Allocator adapters over an explicit world (memory, tracker, call trace) -/

/-- High-level calls observable during a deallocation, in chronological
order: a `std::fill`-with-zero of a byte range, a tracker
`remove_allocation` call, and an upstream `deallocate` call. -/
inductive CallEvent : Type
  | zeroed (ptr n : Nat)
  | removedAlloc (ptr n : Nat)
  | upstreamDealloc (ptr count : Nat)
deriving DecidableEq, Repr

/-- The world threaded through allocator calls: byte-addressed memory, the
shared page-lock tracker, and the chronological list of calls made. -/
structure World : Type where
  mem : Nat → Nat
  tracker : TrackerState
  events : List CallEvent

/-- Effect on memory of `std::fill(reinterpret_cast<std::uint8_t*>(ptr),
reinterpret_cast<std::uint8_t*>(ptr + len), 0)`: every byte address in
`[ptr, ptr + n)` reads zero afterwards. -/
def zeroRange (m : Nat → Nat) (ptr n : Nat) : Nat → Nat :=
  fun a => if ptr ≤ a ∧ a < ptr + n then 0 else m a

/-- The upstream allocator's `deallocate(ptr, count)`: modelled as an
observable call event with otherwise unspecified behavior. -/
def upstream_deallocate (w : World) (ptr count : Nat) : World × Option Err :=
  ({ w with events := w.events ++ [CallEvent.upstreamDealloc ptr count] }, none)

/-- `unserialized_no_swap_allocator<T, A>::deallocate(ptr, len)`:
`_state->remove_allocation(ptr, len * sizeof(T))`, then
`_upstream_allocator.deallocate(ptr, len)`. If `remove_allocation` throws,
the exception propagates and the upstream deallocate is never reached.
`sz` models `sizeof(T)`. -/
def unserialized_no_swap_deallocate (unpinOk : Nat → Bool) (P sz : Nat)
    (w : World) (ptr count : Nat) : World × Option Err :=
  let r := remove_allocation unpinOk P w.tracker ptr (count * sz)
  let w1 : World :=
    { w with tracker := r.1,
             events := w.events ++ [CallEvent.removedAlloc ptr (count * sz)] }
  match r.2 with
  | some e => (w1, some e)
  | none => upstream_deallocate w1 ptr count

/-- `serialized_no_swap_allocator<T, A>::deallocate(ptr, len)`:
`_state->serialized_remove_allocation(ptr, len * sizeof(T))` — which takes
the mutex and delegates to `remove_allocation`; the mutex has no observable
effect in this sequential model — then `_upstream_allocator.deallocate`. -/
def serialized_no_swap_deallocate (unpinOk : Nat → Bool) (P sz : Nat)
    (w : World) (ptr count : Nat) : World × Option Err :=
  let r := remove_allocation unpinOk P w.tracker ptr (count * sz)
  let w1 : World :=
    { w with tracker := r.1,
             events := w.events ++ [CallEvent.removedAlloc ptr (count * sz)] }
  match r.2 with
  | some e => (w1, some e)
  | none => upstream_deallocate w1 ptr count

/-- `zero_on_release_allocator<T, A>::allocate(len)`: a pure passthrough to
the upstream allocator. -/
def zero_on_release_allocate {α : Type} (upstreamAllocate : Nat → α)
    (len : Nat) : α :=
  upstreamAllocate len

/-- `zero_on_release_allocator<T, A>::deallocate(ptr, len)`: `std::fill` the
byte range `[ptr, ptr + len * sizeof(T))` with zero, then call the wrapped
(`downstream`) allocator's deallocate. `sz` models `sizeof(T)`. -/
def zero_on_release_deallocate
    (downstream : World → Nat → Nat → World × Option Err) (sz : Nat)
    (w : World) (ptr count : Nat) : World × Option Err :=
  let w1 : World :=
    { w with mem := zeroRange w.mem ptr (count * sz),
             events := w.events ++ [CallEvent.zeroed ptr (count * sz)] }
  downstream w1 ptr count

/-- `unserialized_secure_allocator<T, A> =
zero_on_release_allocator<T, unserialized_no_swap_allocator<T, A>>`:
its `deallocate`. -/
def unserialized_secure_deallocate (unpinOk : Nat → Bool) (P sz : Nat) :
    World → Nat → Nat → World × Option Err :=
  zero_on_release_deallocate (unserialized_no_swap_deallocate unpinOk P sz) sz

/-- `serialized_secure_allocator<T, A> =
zero_on_release_allocator<T, serialized_no_swap_allocator<T, A>>`:
its `deallocate`. -/
def serialized_secure_deallocate (unpinOk : Nat → Bool) (P sz : Nat) :
    World → Nat → Nat → World × Option Err :=
  zero_on_release_deallocate (serialized_no_swap_deallocate unpinOk P sz) sz

/-! ### Claim theorems -/

/-- C9: for every pointer, `to_page` returns a page-size-aligned address that
is at most the pointer, less than one page below it; and whenever the
underlying align-up primitive rounds past the pointer, the result is that
rounded-up address stepped back by exactly one page. -/
theorem c9_to_page_aligned_down (P ptr : Nat) (hP : 0 < P) :
    to_page P ptr % P = 0 ∧ to_page P ptr ≤ ptr ∧ ptr - to_page P ptr < P ∧
    (ptr < (ptr + P - 1) / P * P →
      to_page P ptr = (ptr + P - 1) / P * P - P) := by
  refine ⟨to_page_mod hP ptr, to_page_le hP ptr, sub_to_page_lt hP ptr, ?_⟩
  intro h
  simp only [to_page, gt_iff_lt, if_pos h]

/-- Witness for C9 at page size 4096 and pointer 10000. -/
theorem c9_witness :
    to_page 4096 10000 % 4096 = 0 ∧ to_page 4096 10000 ≤ 10000 ∧
    10000 - to_page 4096 10000 < 4096 ∧
    (10000 < (10000 + 4096 - 1) / 4096 * 4096 →
      to_page 4096 10000 = (10000 + 4096 - 1) / 4096 * 4096 - 4096) :=
  c9_to_page_aligned_down 4096 10000 (by decide)

/-- C1 counterexample: with page size 4, an empty range (`len = 0`) at the
unaligned pointer 1 still registers page 0 in the map and issues one OS pin
call for it, although no page's byte range intersects the empty range
`[1, 1)`. -/
theorem c1_counterexample :
    (add_allocation (fun _ => true) 4 emptyState 1 0).1.pageRefCount =
      [(0, 1)] ∧
    pinCount 0 (add_allocation (fun _ => true) 4 emptyState 1 0).1 = 1 ∧
    ¬ pageIntersects 4 0 1 0 := by
  refine ⟨by decide, by decide, ?_⟩
  rintro ⟨b, _, _, hb1, hb2⟩
  omega

/-- C1 (amended): with all OS pin calls succeeding, `add_allocation(ptr, len)`
succeeds, and the set of pages it walks is exactly the set of pages whose
byte ranges intersect `[ptr, ptr + len)` whenever `len > 0`; for `len = 0`
the walk is empty when `ptr` is page-aligned, but consists of the single page
containing `ptr` when it is not. Each walked page absent from the map is
inserted with count 1 and pinned exactly once no matter how many of its
bytes the range covers; each walked page already present just has its count
incremented with no OS call; pages not walked are untouched. -/
theorem c1_add_allocation_pages (P : Nat) (pinOk : Nat → Bool)
    (s : TrackerState) (ptr len : Nat) (hP : 0 < P)
    (hpin : ∀ g, pinOk g = true) :
    (add_allocation pinOk P s ptr len).2 = none ∧
    (0 < len → ∀ g, g ∈ pageList P ptr len ↔
        (g % P = 0 ∧ pageIntersects P g ptr len)) ∧
    (len = 0 → pageList P ptr len =
        if ptr % P = 0 then [] else [to_page P ptr]) ∧
    (∀ g ∈ pageList P ptr len,
      (findCount g s.pageRefCount = none →
        findCount g (add_allocation pinOk P s ptr len).1.pageRefCount =
          some 1 ∧
        pinCount g (add_allocation pinOk P s ptr len).1 = pinCount g s + 1 ∧
        unpinCount g (add_allocation pinOk P s ptr len).1 = unpinCount g s) ∧
      (∀ c, findCount g s.pageRefCount = some c →
        findCount g (add_allocation pinOk P s ptr len).1.pageRefCount =
          some ((c + 1) % u32Mod) ∧
        pinCount g (add_allocation pinOk P s ptr len).1 = pinCount g s ∧
        unpinCount g (add_allocation pinOk P s ptr len).1 = unpinCount g s)) ∧
    (∀ g, g ∉ pageList P ptr len →
      findCount g (add_allocation pinOk P s ptr len).1.pageRefCount =
        findCount g s.pageRefCount ∧
      pinCount g (add_allocation pinOk P s ptr len).1 = pinCount g s ∧
      unpinCount g (add_allocation pinOk P s ptr len).1 = unpinCount g s) := by
  have hnd := pageList_nodup P ptr len
  have hsucc : (add_allocation pinOk P s ptr len).2 = none :=
    walkAdd_succ_of_pinOk pinOk hpin _ s
  refine ⟨hsucc, ?_, ?_, ?_, ?_⟩
  · intro hlen g
    exact mem_pageList_iff_intersects hP hlen
  · intro hlen
    subst hlen
    exact pageList_len_zero hP
  · intro g hmem
    constructor
    · intro hc
      have hr := walkAdd_mem_new _ _ s hnd hmem hc hsucc
      exact ⟨hr.1, hr.2.2.1, hr.2.2.2⟩
    · intro c hc
      have hr := walkAdd_mem_old _ _ s hnd hmem hc hsucc
      exact ⟨hr.1, hr.2.2.1, hr.2.2.2⟩
  · intro g hmem
    have hobs := walkAdd_obs_not_mem pinOk _ s hmem
    exact ⟨hobs.1, hobs.2.2.1, hobs.2.2.2⟩

/-- Witness for C1 (amended) at page size 4, pointer 1, length 5 on the empty
tracker: the call succeeds. -/
theorem c1_witness :
    (add_allocation (fun _ => true) 4 emptyState 1 5).2 = none :=
  (c1_add_allocation_pages 4 (fun _ => true) emptyState 1 5 (by decide)
    (fun _ => rfl)).1

/-- C8 counterexample: with page size 4, tracker map `{0 ↦ 1}` and the OS
unpin call failing, `remove_allocation(0, 8)` covers pages 0 and 4; page 4
has no entry, yet the call does not fail with the untracked-release logic
error — the unpin failure on page 0 preempts it — refuting the claimed
"exactly when". -/
theorem c8_counterexample :
    (∃ g ∈ pageList 4 0 8,
      findCount g (⟨[(0, 1)], [0], []⟩ : TrackerState).pageRefCount = none) ∧
    (remove_allocation (fun _ => false) 4 ⟨[(0, 1)], [0], []⟩ 0 8).2 ≠
      some Err.notTracked := by
  decide

/-- C8 (amended): assuming no OS unpin call fails, `remove_allocation`
fails with the "releasing memory not tracked" logic error exactly when some
page covered by `[ptr, ptr + len)` has no entry in the map, and succeeds
when every covered page has an entry. -/
theorem c8_remove_untracked_iff (P : Nat) (unpinOk : Nat → Bool)
    (s : TrackerState) (ptr len : Nat) (hupin : ∀ g, unpinOk g = true) :
    ((remove_allocation unpinOk P s ptr len).2 = some Err.notTracked ↔
      ∃ g ∈ pageList P ptr len, findCount g s.pageRefCount = none) ∧
    ((∀ g ∈ pageList P ptr len, (findCount g s.pageRefCount).isSome) →
      (remove_allocation unpinOk P s ptr len).2 = none) := by
  have h := walkRemove_err unpinOk hupin (pageList P ptr len) s
    (pageList_nodup P ptr len)
  exact ⟨h.1, h.2.mpr⟩

/-- Witness for C8 (amended): page size 4, map `{0 ↦ 1, 4 ↦ 2}`, removing
`[0, 8)` succeeds since both covered pages are tracked. -/
theorem c8_witness :
    (remove_allocation (fun _ => true) 4
      ⟨[(0, 1), (4, 2)], [0, 4], []⟩ 0 8).2 = none :=
  (c8_remove_untracked_iff 4 (fun _ => true) ⟨[(0, 1), (4, 2)], [0, 4], []⟩
    0 8 (fun _ => rfl)).2 (by decide)

/-- C10: when `remove_allocation` fails with the untracked-release error at
some covered page, the pages walked before it keep their decrements — an
entry that reached zero has been unpinned and erased, one that stayed
positive keeps the decremented count — and nothing is rolled back: the
resulting state is exactly the state after walking the preceding pages. -/
theorem c10_remove_partial_on_fail (P : Nat) (unpinOk : Nat → Bool)
    (s : TrackerState) (ptr len gbad : Nat) (pre rest : List Nat)
    (hwf : wf s) (hupin : ∀ g, unpinOk g = true)
    (hsplit : pageList P ptr len = pre ++ gbad :: rest)
    (hpre : ∀ g ∈ pre, (findCount g s.pageRefCount).isSome)
    (hbad : findCount gbad s.pageRefCount = none) :
    (remove_allocation unpinOk P s ptr len).2 = some Err.notTracked ∧
    (remove_allocation unpinOk P s ptr len).1 =
      (walkRemove unpinOk pre s).1 ∧
    (∀ g ∈ pre, ∀ c, findCount g s.pageRefCount = some c →
      ((c + (u32Mod - 1)) % u32Mod = 0 →
        findCount g (remove_allocation unpinOk P s ptr len).1.pageRefCount =
          none ∧
        g ∉ (remove_allocation unpinOk P s ptr len).1.osLocked ∧
        unpinCount g (remove_allocation unpinOk P s ptr len).1 =
          unpinCount g s + 1) ∧
      ((c + (u32Mod - 1)) % u32Mod ≠ 0 →
        findCount g (remove_allocation unpinOk P s ptr len).1.pageRefCount =
          some ((c + (u32Mod - 1)) % u32Mod))) := by
  have hnd : (pre ++ gbad :: rest).Nodup := hsplit ▸ pageList_nodup P ptr len
  obtain ⟨hA, hB⟩ :=
    walkRemove_pre_fail unpinOk hupin pre gbad rest s hnd hpre hbad
  have hrw : remove_allocation unpinOk P s ptr len =
      ((walkRemove unpinOk pre s).1, some Err.notTracked) := by
    show walkRemove unpinOk (pageList P ptr len) s = _
    rw [hsplit]
    exact hA
  refine ⟨by rw [hrw], by rw [hrw], ?_⟩
  intro g hg c hc
  have hndpre : pre.Nodup := (List.nodup_append.mp hnd).1
  obtain ⟨c0, hc0, hz0, hzp⟩ := walkRemove_mem unpinOk pre s hwf hndpre hg hB
  rw [hc] at hc0
  have hcc : c = c0 := Option.some.inj hc0
  subst hcc
  constructor
  · intro hz
    have h0 := hz0 hz
    rw [hrw]
    exact ⟨h0.1, h0.2.1, h0.2.2.2⟩
  · intro hz
    have hp := hzp hz
    rw [hrw]
    exact hp.1

/-- Witness for C10: page size 4, map `{0 ↦ 1}`, removing `[0, 8)` fails on
untracked page 4 after page 0 has already been decremented to zero, unpinned
and erased. -/
theorem c10_witness :
    (remove_allocation (fun _ => true) 4
        (⟨[(0, 1)], [0], []⟩ : TrackerState) 0 8).2 = some Err.notTracked ∧
    findCount 0 (remove_allocation (fun _ => true) 4
        (⟨[(0, 1)], [0], []⟩ : TrackerState) 0 8).1.pageRefCount = none := by
  have h := c10_remove_partial_on_fail 4 (fun _ => true)
    ⟨[(0, 1)], [0], []⟩ 0 8 4 [0] [] (by unfold wf; decide) (fun _ => rfl)
    (by decide) (by decide) (by decide)
  exact ⟨h.1, ((h.2.2 0 (by decide) 1 (by decide)).1 (by decide)).1⟩

/-- C2 counterexample: the claimed invariant includes states reached through
failing OS calls, but (a) after a failing pin during `add_allocation(0, 1)`
(page size 4, empty tracker) page 0 is in the map with count 1 yet not
OS-locked — the `emplace` precedes the throwing `pin_memory` and is not
rolled back — and (b) after a failing unpin during `remove_allocation(0, 1)`
following a successful add, page 0 remains in the map with refcount 0. -/
theorem c2_counterexample :
    (findCount 0 (runOps (fun _ => false) (fun _ => true) 4 [Op.add 0 1]
        emptyState).1.pageRefCount = some 1 ∧
      0 ∉ (runOps (fun _ => false) (fun _ => true) 4 [Op.add 0 1]
        emptyState).1.osLocked) ∧
    findCount 0 (runOps (fun _ => true) (fun _ => false) 4
        [Op.add 0 1, Op.remove 0 1] emptyState).1.pageRefCount = some 0 := by
  decide

/-- C2 (amended): after any sequence of fewer than `2^32` `add_allocation` /
`remove_allocation` calls starting from the empty tracker, all of which
succeed (no OS pin or unpin failure occurred), every page present in the
map has refcount at least 1 and is currently OS-locked, and every page
absent from the map is not OS-locked. (States reached through a failing OS
pin or unpin call violate the invariant, see the counterexample; the length
bound rules out `uint32_t` refcount wraparound.) -/
theorem c2_invariant_success (P : Nat) (pinOk unpinOk : Nat → Bool)
    (ops : List Op) (hlen : ops.length < u32Mod)
    (hsucc : (runOps pinOk unpinOk P ops emptyState).2 = none) :
    (∀ g c, findCount g
        (runOps pinOk unpinOk P ops emptyState).1.pageRefCount = some c →
      1 ≤ c ∧ g ∈ (runOps pinOk unpinOk P ops emptyState).1.osLocked) ∧
    (∀ g, findCount g
        (runOps pinOk unpinOk P ops emptyState).1.pageRefCount = none →
      g ∉ (runOps pinOk unpinOk P ops emptyState).1.osLocked) := by
  have h := invHolds_runOps pinOk unpinOk P ops 0 emptyState
    invHolds_empty (by omega) hsucc
  exact ⟨fun g c hg => ⟨(h.2.1 g c hg).1, (h.2.1 g c hg).2.2⟩, h.2.2⟩

/-- Witness for C2 (amended): one successful `add_allocation(0, 1)` at page
size 4. -/
theorem c2_witness :
    (∀ g c, findCount g
        (runOps (fun _ => true) (fun _ => true) 4 [Op.add 0 1]
          emptyState).1.pageRefCount = some c →
      1 ≤ c ∧ g ∈ (runOps (fun _ => true) (fun _ => true) 4 [Op.add 0 1]
          emptyState).1.osLocked) ∧
    (∀ g, findCount g
        (runOps (fun _ => true) (fun _ => true) 4 [Op.add 0 1]
          emptyState).1.pageRefCount = none →
      g ∉ (runOps (fun _ => true) (fun _ => true) 4 [Op.add 0 1]
          emptyState).1.osLocked) :=
  c2_invariant_success 4 (fun _ => true) (fun _ => true) [Op.add 0 1]
    (by decide) rfl

/-- C6: during any single successful tracker operation, an OS pin call for a
page is issued only when that operation takes the page from absent (refcount
0) to present (refcount 1), and an OS unpin call only when it takes the page
from refcount 1 to absent; consequently, over any successful run of at least
two operations in which a page starts untracked, is tracked through every
intermediate state, and ends untracked, exactly one pin call and exactly one
unpin call are issued for that page, however many overlapping allocations
shared it. -/
theorem c6_pin_unpin_once (P : Nat) (pinOk unpinOk : Nat → Bool) (g : Nat) :
    (∀ (s : TrackerState) (op : Op), wf s →
      (applyOp pinOk unpinOk P s op).2 = none →
      (pinCount g (applyOp pinOk unpinOk P s op).1 ≠ pinCount g s →
        tracked g s = false ∧
        tracked g (applyOp pinOk unpinOk P s op).1 = true ∧
        pinCount g (applyOp pinOk unpinOk P s op).1 = pinCount g s + 1) ∧
      (unpinCount g (applyOp pinOk unpinOk P s op).1 ≠ unpinCount g s →
        tracked g s = true ∧
        tracked g (applyOp pinOk unpinOk P s op).1 = false ∧
        unpinCount g (applyOp pinOk unpinOk P s op).1 = unpinCount g s + 1)) ∧
    (∀ (ops : List Op) (s : TrackerState), wf s → 2 ≤ ops.length →
      (runOps pinOk unpinOk P ops s).2 = none →
      tracked g s = false →
      tracked g (runOps pinOk unpinOk P ops s).1 = false →
      (∀ t ∈ ((runStates pinOk unpinOk P ops s).drop 1).dropLast,
        tracked g t = true) →
      pinCount g (runOps pinOk unpinOk P ops s).1 = pinCount g s + 1 ∧
      unpinCount g (runOps pinOk unpinOk P ops s).1 = unpinCount g s + 1) := by
  constructor
  · intro s op hwf hsucc
    have ht := applyOp_transitions pinOk unpinOk P (g := g) s op hwf hsucc
    constructor
    · intro hne
      cases h0 : tracked g s with
      | false =>
          cases h1 : tracked g (applyOp pinOk unpinOk P s op).1 with
          | false => exact absurd (ht.2.2.2 h0 h1).1 hne
          | true => exact ⟨rfl, rfl, (ht.1 h0 h1).1⟩
      | true =>
          cases h1 : tracked g (applyOp pinOk unpinOk P s op).1 with
          | false => exact absurd (ht.2.2.1 h0 h1).1 hne
          | true => exact absurd (ht.2.1 h0 h1).1 hne
    · intro hne
      cases h0 : tracked g s with
      | false =>
          cases h1 : tracked g (applyOp pinOk unpinOk P s op).1 with
          | false => exact absurd (ht.2.2.2 h0 h1).2 hne
          | true => exact absurd (ht.1 h0 h1).2 hne
      | true =>
          cases h1 : tracked g (applyOp pinOk unpinOk P s op).1 with
          | false => exact ⟨rfl, rfl, (ht.2.2.1 h0 h1).2⟩
          | true => exact absurd (ht.2.1 h0 h1).2 hne
  · intro ops s hwf h2 hsucc h0 hfin hmid
    cases ops with
    | nil => simp at h2
    | cons op rest =>
        have hrest_ne : rest ≠ [] := by
          intro hh
          subst hh
          simp at h2
        rcases hop : applyOp pinOk unpinOk P s op with ⟨s1, e⟩
        cases e with
        | some e =>
            rw [runOps_fail_cons rest hop] at hsucc
            simp at hsucc
        | none =>
            rw [runOps_succ_cons rest hop] at hsucc hfin ⊢
            have hms : (runStates pinOk unpinOk P (op :: rest) s).drop 1 =
                runStates pinOk unpinOk P rest s1 := by
              rw [show runStates pinOk unpinOk P (op :: rest) s =
                    s :: runStates pinOk unpinOk P rest
                      (applyOp pinOk unpinOk P s op).1 from rfl, hop]
              rfl
            rw [hms] at hmid
            have ht1 : tracked g s1 = true := by
              apply hmid
              cases rest with
              | nil => exact absurd rfl hrest_ne
              | cons op' rest' =>
                  rw [show runStates pinOk unpinOk P (op' :: rest') s1 =
                        s1 :: runStates pinOk unpinOk P rest'
                          (applyOp pinOk unpinOk P s1 op').1 from rfl]
                  rw [dropLast_cons_of_ne_nil (runStates_ne_nil _ _) s1]
                  exact List.mem_cons_self _ _
            have hopsucc : (applyOp pinOk unpinOk P s op).2 = none := by
              rw [hop]
            have htrans := applyOp_transitions pinOk unpinOk P (g := g)
              s op hwf hopsucc
            rw [hop] at htrans
            have hd := htrans.1 h0 ht1
            have hwf1 : wf s1 := by
              have h := wf_applyOp pinOk unpinOk P s op hwf
              rw [hop] at h
              exact h
            have hr := run_close rest s1 hwf1 hsucc ht1 hfin hmid
            exact ⟨by rw [hr.1, hd.1], by rw [hr.2, hd.2]⟩

/-- Witness for C6: the run `add(0, 1); remove(0, 1)` at page size 4 from the
empty tracker issues exactly one pin and one unpin for page 0. -/
theorem c6_witness :
    pinCount 0 (runOps (fun _ => true) (fun _ => true) 4
        [Op.add 0 1, Op.remove 0 1] emptyState).1 =
      pinCount 0 emptyState + 1 ∧
    unpinCount 0 (runOps (fun _ => true) (fun _ => true) 4
        [Op.add 0 1, Op.remove 0 1] emptyState).1 =
      unpinCount 0 emptyState + 1 :=
  (c6_pin_unpin_once 4 (fun _ => true) (fun _ => true) 0).2
    [Op.add 0 1, Op.remove 0 1] emptyState (by unfold wf; decide) (by decide)
    rfl rfl rfl (by decide)

/-- C7: for every pointer and length, `add_allocation(p, l)` on the empty
tracker followed by `remove_allocation(p, l)`, both succeeding, leaves the
page-to-refcount map empty. -/
theorem c7_add_remove_roundtrip (P : Nat) (pinOk unpinOk : Nat → Bool)
    (ptr len : Nat)
    (hsucc1 : (add_allocation pinOk P emptyState ptr len).2 = none)
    (hsucc2 : (remove_allocation unpinOk P
        (add_allocation pinOk P emptyState ptr len).1 ptr len).2 = none) :
    (remove_allocation unpinOk P
        (add_allocation pinOk P emptyState ptr len).1 ptr len).1.pageRefCount
      = [] := by
  have hnd := pageList_nodup P ptr len
  have hmem1 : ∀ g ∈ pageList P ptr len,
      findCount g (add_allocation pinOk P emptyState ptr len).1.pageRefCount
        = some 1 := by
    intro g hg
    have h0 : findCount g emptyState.pageRefCount = none := rfl
    exact (walkAdd_mem_new _ _ _ hnd hg h0 hsucc1).1
  have hnot1 : ∀ g, g ∉ pageList P ptr len →
      findCount g (add_allocation pinOk P emptyState ptr len).1.pageRefCount
        = none := by
    intro g hg
    have hobs := walkAdd_obs_not_mem pinOk _ emptyState hg
    show findCount g
      (walkAdd pinOk (pageList P ptr len) emptyState).1.pageRefCount = none
    rw [hobs.1]
    rfl
  have hwf1 : wf (add_allocation pinOk P emptyState ptr len).1 :=
    wf_walkAdd _ _ _ wf_emptyState
  apply eq_nil_of_findCount_none
  intro g
  by_cases hg : g ∈ pageList P ptr len
  · obtain ⟨c, hc, hz0, _⟩ := walkRemove_mem _ _ _ hwf1 hnd hg hsucc2
    rw [hmem1 g hg] at hc
    have hc1 : c = 1 := (Option.some.inj hc).symm
    subst hc1
    have hz : (1 + (u32Mod - 1)) % u32Mod = 0 := by
      have h1 : 1 + (u32Mod - 1) = u32Mod := by
        unfold u32Mod
        norm_num
      rw [h1, Nat.mod_self]
    exact (hz0 hz).1
  · have hobs := walkRemove_obs_not_mem unpinOk _
      (add_allocation pinOk P emptyState ptr len).1 hg
    show findCount g (walkRemove unpinOk (pageList P ptr len)
      (add_allocation pinOk P emptyState ptr len).1).1.pageRefCount = none
    rw [hobs.1]
    exact hnot1 g hg

/-- Witness for C7 at page size 4, pointer 1, length 5. -/
theorem c7_witness :
    (remove_allocation (fun _ => true) 4
        (add_allocation (fun _ => true) 4 emptyState 1 5).1 1 5).1.pageRefCount
      = [] :=
  c7_add_remove_roundtrip 4 (fun _ => true) (fun _ => true) 1 5
    (by decide) (by decide)

/-- C5: for the zero-on-release allocator, `allocate` returns the upstream
pointer unchanged with no other effect, and `deallocate(ptr, count)` writes
zero to every byte of `[ptr, ptr + count * sizeof(element))`, leaves all
other bytes untouched, and then forwards `(ptr, count)` to the upstream
deallocate. -/
theorem c5_zero_on_release_behavior (sz : Nat) (w : World) (ptr count : Nat)
    (alloc : Nat → Nat) (len : Nat) :
    zero_on_release_allocate alloc len = alloc len ∧
    (zero_on_release_deallocate upstream_deallocate sz w ptr count).2 = none ∧
    (zero_on_release_deallocate upstream_deallocate sz w ptr count).1.events =
      w.events ++ [CallEvent.zeroed ptr (count * sz),
                   CallEvent.upstreamDealloc ptr count] ∧
    (∀ b, ptr ≤ b → b < ptr + count * sz →
      (zero_on_release_deallocate upstream_deallocate sz w ptr count).1.mem b
        = 0) ∧
    (∀ b, b < ptr ∨ ptr + count * sz ≤ b →
      (zero_on_release_deallocate upstream_deallocate sz w ptr count).1.mem b
        = w.mem b) ∧
    (zero_on_release_deallocate upstream_deallocate sz w ptr count).1.tracker
      = w.tracker := by
  refine ⟨rfl, rfl, ?_, ?_, ?_, rfl⟩
  · simp [zero_on_release_deallocate, upstream_deallocate]
  · intro b h1 h2
    show zeroRange w.mem ptr (count * sz) b = 0
    unfold zeroRange
    rw [if_pos ⟨h1, h2⟩]
  · intro b h
    show zeroRange w.mem ptr (count * sz) b = w.mem b
    unfold zeroRange
    rw [if_neg (by omega)]

/-- C4: for both no-swap allocator variants, `deallocate(ptr, count)` first
runs the tracker's `remove_allocation` and only then the upstream
deallocate; if `remove_allocation` fails, its error propagates out of
`deallocate` and the upstream deallocate is not invoked at all. -/
theorem c4_no_swap_deallocate_order (unpinOk : Nat → Bool) (P sz : Nat)
    (w : World) (ptr count : Nat) :
    serialized_no_swap_deallocate unpinOk P sz w ptr count =
      unserialized_no_swap_deallocate unpinOk P sz w ptr count ∧
    (unserialized_no_swap_deallocate unpinOk P sz w ptr count).2 =
      (remove_allocation unpinOk P w.tracker ptr (count * sz)).2 ∧
    (unserialized_no_swap_deallocate unpinOk P sz w ptr count).1.tracker =
      (remove_allocation unpinOk P w.tracker ptr (count * sz)).1 ∧
    (unserialized_no_swap_deallocate unpinOk P sz w ptr count).1.events =
      w.events ++ (CallEvent.removedAlloc ptr (count * sz) ::
        (match (remove_allocation unpinOk P w.tracker ptr (count * sz)).2 with
         | none => [CallEvent.upstreamDealloc ptr count]
         | some _ => [])) := by
  rcases hr : remove_allocation unpinOk P w.tracker ptr (count * sz)
    with ⟨t1, e⟩
  cases e with
  | none =>
      refine ⟨rfl, ?_, ?_, ?_⟩ <;>
        simp [unserialized_no_swap_deallocate, upstream_deallocate, hr]
  | some err =>
      refine ⟨rfl, ?_, ?_, ?_⟩ <;>
        simp [unserialized_no_swap_deallocate, hr]

/-- C3: for both secure allocator variants, `deallocate(ptr, count)` zeroes
every byte of `[ptr, ptr + count * sizeof(T))` strictly before the no-swap
layer's `remove_allocation` runs (the world handed to the no-swap layer
already has the range zeroed), which runs strictly before the upstream
deallocate; the zeroed bytes stay zero in the final state, so the memory is
never unlocked while still holding un-zeroed data. -/
theorem c3_secure_zero_before_unlock (unpinOk : Nat → Bool) (P sz : Nat)
    (w : World) (ptr count : Nat) :
    serialized_secure_deallocate unpinOk P sz w ptr count =
      unserialized_secure_deallocate unpinOk P sz w ptr count ∧
    unserialized_secure_deallocate unpinOk P sz w ptr count =
      unserialized_no_swap_deallocate unpinOk P sz
        { w with mem := zeroRange w.mem ptr (count * sz),
                 events := w.events ++ [CallEvent.zeroed ptr (count * sz)] }
        ptr count ∧
    (∀ b, ptr ≤ b → b < ptr + count * sz →
      zeroRange w.mem ptr (count * sz) b = 0) ∧
    (unserialized_secure_deallocate unpinOk P sz w ptr count).1.events =
      w.events ++ (CallEvent.zeroed ptr (count * sz) ::
        CallEvent.removedAlloc ptr (count * sz) ::
        (match (remove_allocation unpinOk P w.tracker ptr (count * sz)).2 with
         | none => [CallEvent.upstreamDealloc ptr count]
         | some _ => [])) ∧
    (∀ b, ptr ≤ b → b < ptr + count * sz →
      (unserialized_secure_deallocate unpinOk P sz w ptr count).1.mem b = 0) := by
  refine ⟨rfl, rfl, ?_, ?_, ?_⟩
  · intro b h1 h2
    unfold zeroRange
    rw [if_pos ⟨h1, h2⟩]
  · rcases hr : remove_allocation unpinOk P w.tracker ptr (count * sz)
      with ⟨t1, e⟩
    cases e with
    | none =>
        simp [unserialized_secure_deallocate, zero_on_release_deallocate,
              unserialized_no_swap_deallocate, upstream_deallocate, hr]
    | some err =>
        simp [unserialized_secure_deallocate, zero_on_release_deallocate,
              unserialized_no_swap_deallocate, hr]
  · intro b h1 h2
    rcases hr : remove_allocation unpinOk P w.tracker ptr (count * sz)
      with ⟨t1, e⟩
    cases e with
    | none =>
        show (unserialized_no_swap_deallocate unpinOk P sz
          { w with mem := zeroRange w.mem ptr (count * sz),
                   events := w.events ++ [CallEvent.zeroed ptr (count * sz)] }
          ptr count).1.mem b = 0
        simp only [unserialized_no_swap_deallocate, upstream_deallocate, hr]
        unfold zeroRange
        rw [if_pos ⟨h1, h2⟩]
    | some err =>
        show (unserialized_no_swap_deallocate unpinOk P sz
          { w with mem := zeroRange w.mem ptr (count * sz),
                   events := w.events ++ [CallEvent.zeroed ptr (count * sz)] }
          ptr count).1.mem b = 0
        simp only [unserialized_no_swap_deallocate, hr]
        unfold zeroRange
        rw [if_pos ⟨h1, h2⟩]

end EC
